import Mathlib

/-!
Verification of the YAML dump file backend of python-icat
(src/icat/dumpfile_yaml.py), against the entity type declarations of
src/icat/entities.py.

The development shallowly embeds the dump/restore serialization engine:
scalar values, entity objects, dump records, the encoder `entity2dict`,
the decoder `dict2entity`, the reader iteration `getobjs` and the writer
state machine (`startdata`, `add`, `finalize`).

Parts of the repository that are only collaborators of this module
(the abstract base class icat.entity.Entity with its getUniqueKey and
sortkey methods, the client typemap and getEntityInfo) are modelled from
the specification as abstract parameters or as explicitly marked
definitions.
-/

namespace Icat

/-- Model of a Python datetime value.  The field naiveIso is the naive part
of the isoformat rendering (without any timezone suffix); tz models the
tzinfo attribute: none for a naive datetime, some none for a tzinfo whose
utcoffset method returns None, and some (some off) for a tzinfo with a
fixed UTC offset of off minutes. -/
structure Datetime where
  naiveIso : String
  tz : Option (Option Int)
deriving DecidableEq, Repr

/-- Two-digit decimal rendering used in timezone suffixes. -/
def twoDigits (n : Nat) : String :=
  if n < 10 then "0" ++ toString n else toString n

/-- The timezone suffix that Python appends in datetime.isoformat when
utcoffset is not None, in the form +HH:MM or -HH:MM. -/
def offsetSuffix (off : Int) : String :=
  let m := off.natAbs
  (if off < 0 then "-" else "+") ++ twoDigits (m / 60) ++ ":" ++ twoDigits (m % 60)

/-- Model of datetime.isoformat: the naive rendering, with the UTC offset
suffix appended exactly when the value carries a tzinfo whose utcoffset is
not None. -/
def Datetime.isoformat (d : Datetime) : String :=
  match d.tz with
  | some (some off) => d.naiveIso ++ offsetSuffix off
  | _ => d.naiveIso

/-- The test performed by entity2dict on a datetime value:
v.tzinfo is not None and v.tzinfo.utcoffset(v) is not None. -/
def Datetime.hasTzOffset (d : Datetime) : Bool :=
  match d.tz with
  | some (some _) => true
  | _ => false

/-- Scalar values that an entity attribute may hold.  vnone models Python
None (also the result of getattr for an unset attribute); vother models any
further scalar type (float, Decimal, ...) identified by its str() rendering. -/
inductive Value where
  | vnone : Value
  | vbool : Bool → Value
  | vint : Int → Value
  | vstr : String → Value
  | vdatetime : Datetime → Value
  | vother : String → Value
deriving DecidableEq, Repr

/-- Values of a field of a dump record: either a scalar or a list of nested
child records (a record being a finite mapping from field name to value,
represented as an association list). -/
inductive RValue where
  | scalar : Value → RValue
  | sublist : List (List (String × RValue)) → RValue

/-- A dump record: mapping from field name to record value. -/
abbrev Record := List (String × RValue)

/-- An entity object: its type tag and its instance attribute, to-one
relation and to-many relation values, each as an association list.  A name
absent from the list models an attribute that is unset (getattr returns
None, respectively an empty collection for a to-many relation). -/
inductive Entity where
  | mk : String → List (String × Value) → List (String × Entity) →
         List (String × List Entity) → Entity

def Entity.etype : Entity → String
  | .mk t _ _ _ => t

def Entity.attrs : Entity → List (String × Value)
  | .mk _ a _ _ => a

def Entity.rels : Entity → List (String × Entity)
  | .mk _ _ r _ => r

def Entity.mrels : Entity → List (String × List Entity)
  | .mk _ _ _ m => m

/-- Modelled from the spec: getattr(obj, attr, None) for a plain instance
attribute of an entity object. -/
def Entity.getattrA (e : Entity) (a : String) : Value :=
  (e.attrs.lookup a).getD Value.vnone

/-- Modelled from the spec: getattr(obj, attr, None) for a to-one relation
of an entity object. -/
def Entity.getrel (e : Entity) (a : String) : Option Entity :=
  e.rels.lookup a

/-- Modelled from the spec: getattr(obj, attr) for a to-many relation of an
entity object; an unset relation is an empty collection. -/
def Entity.getmrel (e : Entity) (a : String) : List Entity :=
  (e.mrels.lookup a).getD []

/-- The declared field sets of an entity type: the class variables
InstAttr, InstRel and InstMRel of src/icat/entities.py.  The Python
originals are frozensets; they are represented here as lists in source
order (the iteration order of a frozenset is arbitrary but fixed). -/
structure EntityType where
  instAttr : List String
  instRel : List String
  instMRel : List String
deriving DecidableEq, Repr

/-!
Entity type declarations, from src/icat/entities.py.  Each definition
gives the effective (inheritance-resolved) InstAttr, InstRel and InstMRel
of the class of the same name; the abstract base class icat.entity.Entity
(not under src/) contributes, modelled from the spec, the identity
attribute and empty relation sets.  The 4.3 variants are the ones selected
by the typemap for the type tags used by the dump file backend.
-/

def entityUser : EntityType :=
  ⟨["id", "name", "fullName"], [],
   ["investigationUsers", "instrumentScientists", "userGroups", "studies"]⟩

def entityGroup43 : EntityType :=
  ⟨["id", "name"], [], ["userGroups", "rules"]⟩

def entityRule43 : EntityType :=
  ⟨["id", "what", "crudFlags"], ["grouping"], []⟩

def entityPublicStep : EntityType :=
  ⟨["id", "origin", "field"], [], []⟩

def entityFacility43 : EntityType :=
  ⟨["id", "name", "fullName", "description", "url", "daysUntilRelease"], [],
   ["instruments", "facilityCycles", "investigations", "parameterTypes",
    "datafileFormats", "datasetTypes", "sampleTypes", "investigationTypes",
    "applications"]⟩

def entityInstrument43 : EntityType :=
  ⟨["id", "name", "fullName", "description", "type", "url"], ["facility"],
   ["instrumentScientists", "investigationInstruments"]⟩

def entityParameterType43 : EntityType :=
  ⟨["id", "name", "description", "valueType", "units", "unitsFullName",
    "minimumNumericValue", "maximumNumericValue", "enforced", "verified",
    "applicableToDatafile", "applicableToDataset", "applicableToSample",
    "applicableToInvestigation", "applicableToDataCollection"],
   ["facility"],
   ["datafileParameters", "datasetParameters", "sampleParameters",
    "investigationParameters", "dataCollectionParameters",
    "permissibleStringValues"]⟩

def entityInvestigationType : EntityType :=
  ⟨["id", "name", "description"], ["facility"], ["investigations"]⟩

def entitySampleType : EntityType :=
  ⟨["id", "name", "molecularFormula", "safetyInformation"], ["facility"],
   ["samples"]⟩

def entityDatasetType : EntityType :=
  ⟨["id", "name", "description"], ["facility"], ["datasets"]⟩

def entityDatafileFormat : EntityType :=
  ⟨["id", "name", "description", "version", "type"], ["facility"],
   ["datafiles"]⟩

def entityFacilityCycle43 : EntityType :=
  ⟨["id", "name", "description", "startDate", "endDate"], ["facility"], []⟩

def entityApplication43 : EntityType :=
  ⟨["id", "name", "version"], ["facility"], ["jobs"]⟩

def entityInvestigation43 : EntityType :=
  ⟨["id", "name", "title", "summary", "doi", "visitId", "startDate",
    "endDate", "releaseDate"],
   ["type", "facility"],
   ["parameters", "investigationInstruments", "investigationUsers",
    "keywords", "publications", "samples", "datasets", "shifts",
    "studyInvestigations"]⟩

def entityStudy : EntityType :=
  ⟨["id", "name", "description", "status", "startDate"], ["user"],
   ["studyInvestigations"]⟩

def entitySample : EntityType :=
  ⟨["id", "name"], ["type", "investigation"], ["parameters", "datasets"]⟩

def entityDataset43 : EntityType :=
  ⟨["id", "name", "description", "location", "startDate", "endDate",
    "complete", "doi"],
   ["type", "sample", "investigation"],
   ["parameters", "datafiles", "dataCollectionDatasets"]⟩

def entityDatafile43 : EntityType :=
  ⟨["id", "name", "description", "location", "fileSize", "checksum",
    "datafileCreateTime", "datafileModTime", "doi"],
   ["datafileFormat", "dataset"],
   ["parameters", "dataCollectionDatafiles", "sourceDatafiles",
    "destDatafiles"]⟩

def entityRelatedDatafile : EntityType :=
  ⟨["id", "relation"], ["sourceDatafile", "destDatafile"], []⟩

def entityDataCollection : EntityType :=
  ⟨["id"], [],
   ["dataCollectionDatafiles", "dataCollectionDatasets",
    "dataCollectionParameters", "jobsAsInput", "jobsAsOutput"]⟩

def entityJob43 : EntityType :=
  ⟨["id", "arguments"],
   ["application", "inputDataCollection", "outputDataCollection"], []⟩

def entityDatafileParameter : EntityType :=
  ⟨["id", "numericValue", "dateTimeValue", "stringValue", "rangeBottom",
    "rangeTop", "error"], ["datafile", "type"], []⟩

def entityDatasetParameter : EntityType :=
  ⟨["id", "numericValue", "dateTimeValue", "stringValue", "rangeBottom",
    "rangeTop", "error"], ["dataset", "type"], []⟩

def entityPermissibleStringValue : EntityType :=
  ⟨["id", "value"], ["type"], []⟩

def entityKeyword : EntityType :=
  ⟨["id", "name"], ["investigation"], []⟩

/-- An entity type declaring nothing; used as the typemap default for names
outside the registry. -/
def entityEmpty : EntityType := ⟨[], [], []⟩

/-- Modelled from the spec: the client typemap collaborator, mapping a type
tag to the declared field sets of the corresponding entity class of
src/icat/entities.py (4.3 variants). -/
def icatTypemap : String → EntityType := fun t =>
  if t = "user" then entityUser
  else if t = "grouping" then entityGroup43
  else if t = "rule" then entityRule43
  else if t = "publicStep" then entityPublicStep
  else if t = "facility" then entityFacility43
  else if t = "instrument" then entityInstrument43
  else if t = "parameterType" then entityParameterType43
  else if t = "investigationType" then entityInvestigationType
  else if t = "sampleType" then entitySampleType
  else if t = "datasetType" then entityDatasetType
  else if t = "datafileFormat" then entityDatafileFormat
  else if t = "facilityCycle" then entityFacilityCycle43
  else if t = "application" then entityApplication43
  else if t = "investigation" then entityInvestigation43
  else if t = "study" then entityStudy
  else if t = "sample" then entitySample
  else if t = "dataset" then entityDataset43
  else if t = "datafile" then entityDatafile43
  else if t = "relatedDatafile" then entityRelatedDatafile
  else if t = "dataCollection" then entityDataCollection
  else if t = "job" then entityJob43
  else if t = "datafileParameter" then entityDatafileParameter
  else if t = "datasetParameter" then entityDatasetParameter
  else if t = "permissibleStringValue" then entityPermissibleStringValue
  else if t = "keyword" then entityKeyword
  else entityEmpty

/-- The list of entity types of dumpfile_yaml.py; it defines in particular
the order in which the types must be restored. -/
def entitytypes : List String :=
  ["user", "grouping", "rule", "publicStep", "facility", "instrument",
   "parameterType", "investigationType", "sampleType", "datasetType",
   "datafileFormat", "facilityCycle", "application", "investigation",
   "study", "sample", "dataset", "datafile", "relatedDatafile",
   "dataCollection", "job"]

/-!
The entity-to-record encoder entity2dict of src/icat/dumpfile_yaml.py.
The methods getUniqueKey and the sortkey of the base entity class are not
under src/ and are modelled from the spec as abstract parameters:
keyOf o models o.getUniqueKey(autoget=False, keyindex=keyindex) for the
key index in use, and sk models the natural sort key of an entity.
-/

/-- The value conversion chain of the InstAttr loop of entity2dict: None is
skipped, booleans pass through, int and long are normalized to int, a
datetime is rendered as an ISO-8601 string (isoformat if it has a tzinfo
with a non-None utcoffset, isoformat plus a Z suffix otherwise), and any
other value is converted with str. -/
def scalar2yaml (v : Value) : Option Value :=
  match v with
  | .vnone => none
  | .vbool b => some (.vbool b)
  | .vint n => some (.vint n)
  | .vdatetime d =>
      if d.hasTzOffset then some (.vstr d.isoformat)
      else some (.vstr (d.isoformat ++ "Z"))
  | .vstr s => some (.vstr s)
  | .vother s => some (.vstr s)

theorem mem_of_lookup_eq_some {β : Type _} {a : String} {b : β} :
    ∀ {l : List (String × β)}, l.lookup a = some b → (a, b) ∈ l := by
  intro l
  induction l with
  | nil => intro h; simp [List.lookup] at h
  | cons p rest ih =>
    intro h
    obtain ⟨k, w⟩ := p
    rw [List.lookup] at h
    split at h
    · rename_i heq
      have hk : a = k := eq_of_beq heq
      subst hk
      cases h
      exact List.mem_cons_self _ _
    · exact List.mem_cons_of_mem _ (ih h)

theorem sizeOf_mem_getmrel {e : Entity} {a : String} {c : Entity}
    (h : c ∈ e.getmrel a) : sizeOf c < sizeOf e := by
  obtain ⟨t, at_, r, m⟩ := e
  unfold Entity.getmrel at h
  simp only [Entity.mrels] at h
  cases hl : List.lookup a m with
  | none => rw [hl] at h; simp at h
  | some cs =>
    rw [hl] at h
    simp only [Option.getD_some] at h
    have h1 : sizeOf c < sizeOf cs := List.sizeOf_lt_of_mem h
    have h2 : (a, cs) ∈ m := mem_of_lookup_eq_some hl
    have h3 : sizeOf (a, cs) < sizeOf m := List.sizeOf_lt_of_mem h2
    have h4 : sizeOf cs < sizeOf (a, cs) := by simp
    have h5 : sizeOf m < sizeOf (Entity.mk t at_ r m) := by simp
    omega

theorem sizeOf_getmrel_lt {e : Entity} {a : String}
    (h : e.getmrel a ≠ []) : sizeOf (e.getmrel a) < sizeOf e := by
  obtain ⟨t, at_, r, m⟩ := e
  unfold Entity.getmrel at h ⊢
  simp only [Entity.mrels] at h ⊢
  cases hl : List.lookup a m with
  | none => rw [hl] at h; simp at h
  | some cs =>
    rw [hl] at h
    simp only [Option.getD_some] at h ⊢
    have h2 : (a, cs) ∈ m := mem_of_lookup_eq_some hl
    have h3 : sizeOf (a, cs) < sizeOf m := List.sizeOf_lt_of_mem h2
    have h4 : sizeOf cs < sizeOf (a, cs) := by simp
    have h5 : sizeOf m < sizeOf (Entity.mk t at_ r m) := by simp
    omega

/-- The comparison used by sorted(..., key=icat.entity.Entity.sortkey):
compare the children by their sort keys. -/
def skle (sk : Entity → String) (x y : Entity) : Bool :=
  decide (sk x ≤ sk y)

/-- The InstAttr loop of entity2dict: for each declared plain attribute
except the identity, look the value up and store its converted form,
skipping absent values. -/
def encodeAttrs (e : Entity) (names : List String) : Record :=
  names.filterMap (fun a =>
    if a = "id" then none
    else (scalar2yaml (e.getattrA a)).map (fun v => (a, RValue.scalar v)))

/-- The InstRel loop of entity2dict: for each declared to-one relation
whose target is present, store the unique key of the target. -/
def encodeRels (keyOf : Entity → String) (e : Entity) (names : List String) :
    Record :=
  names.filterMap (fun a =>
    (e.getrel a).map (fun o => (a, RValue.scalar (Value.vstr (keyOf o)))))

mutual

/-- Convert an entity object to a dict (entity2dict of dumpfile_yaml.py). -/
def entity2dict (reg : String → EntityType) (keyOf : Entity → String)
    (sk : Entity → String) (e : Entity) : Record :=
  encodeAttrs e (reg e.etype).instAttr ++
  encodeRels keyOf e (reg e.etype).instRel ++
  encodeMRels reg keyOf sk e (reg e.etype).instMRel
termination_by (sizeOf e, 1, 0)
decreasing_by
  exact Prod.Lex.right _ (Prod.Lex.left _ _ (by omega))

/-- The InstMRel loop of entity2dict: for each declared to-many relation
with at least one child, store the list of the recursively encoded
children, sorted by their sort keys. -/
def encodeMRels (reg : String → EntityType) (keyOf : Entity → String)
    (sk : Entity → String) (e : Entity) : List String → Record
  | [] => []
  | a :: rest =>
    (if h : 0 < (e.getmrel a).length then
      [(a, RValue.sublist
          (encodeList reg keyOf sk ((e.getmrel a).mergeSort (skle sk))))]
     else []) ++ encodeMRels reg keyOf sk e rest
termination_by names => (sizeOf e, 0, sizeOf names)
decreasing_by
  · apply Prod.Lex.left
    have h1 : sizeOf ((e.getmrel a).mergeSort (skle sk)) =
        sizeOf (e.getmrel a) :=
      (List.mergeSort_perm (e.getmrel a) (skle sk)).sizeOf_eq_sizeOf
    have h2 : sizeOf (e.getmrel a) < sizeOf e :=
      sizeOf_getmrel_lt (List.length_pos.mp h)
    omega
  · apply Prod.Lex.right
    apply Prod.Lex.right
    simp

/-- Encode each entity of a list in order. -/
def encodeList (reg : String → EntityType) (keyOf : Entity → String)
    (sk : Entity → String) : List Entity → List (List (String × RValue))
  | [] => []
  | c :: cs => entity2dict reg keyOf sk c :: encodeList reg keyOf sk cs
termination_by l => (sizeOf l, 2, 0)
decreasing_by
  · apply Prod.Lex.left
    simp
    omega
  · apply Prod.Lex.left
    simp

end

/-!
The record-to-entity decoder dict2entity, the reader iteration getobjs and
the writer class of src/icat/dumpfile_yaml.py.
-/

/-- The error outcomes of the dump/restore engine, named after the error
taxonomy of the spec.  In the Python source, unknownField and
unknownEntityType are both raised as ValueError; unresolvedRef models a
failing client.searchUniqueKey; typeMismatch marks states where the Python
code would apply an operation to a dynamically ill-typed record value
(iterating or key-parsing a value of the wrong shape), which the typed
embedding cannot represent as a success. -/
inductive DumpError where
  | unknownField : String → String → DumpError
  | unresolvedRef : String → DumpError
  | unknownEntityType : String → DumpError
  | typeMismatch : String → DumpError
deriving DecidableEq, Repr

/-- Set a key in an association list, replacing the binding in place if the
key is present and appending it otherwise; the update semantics of a Python
dict and of attribute assignment on an entity object. -/
def setassoc {β : Type _} : List (String × β) → String → β → List (String × β)
  | [], a, v => [(a, v)]
  | (k, w) :: rest, a, v =>
    if k = a then (a, v) :: rest else (k, w) :: setassoc rest a v

/-- Modelled from the spec: setattr(obj, attr, v) for a plain attribute. -/
def Entity.setattrA (e : Entity) (a : String) (v : Value) : Entity :=
  .mk e.etype (setassoc e.attrs a v) e.rels e.mrels

/-- Modelled from the spec: setattr(obj, attr, robj) for a to-one
relation. -/
def Entity.setrel (e : Entity) (a : String) (o : Entity) : Entity :=
  .mk e.etype e.attrs (setassoc e.rels a o) e.mrels

/-- Modelled from the spec: getattr(obj, attr).append(robj) repeated for
each decoded child of a to-many relation. -/
def Entity.appendmrel (e : Entity) (a : String) (cs : List Entity) : Entity :=
  .mk e.etype e.attrs e.rels (setassoc e.mrels a (e.getmrel a ++ cs))

mutual

/-- The field loop of dict2entity: for each record field, assign a plain
attribute directly, resolve a to-one relation key through the client
(resolve models client.searchUniqueKey with the ambient object index),
recursively decode the children of a to-many relation using the child type
declared by the client metadata (childType models the mreltypes mapping
computed from client.getEntityInfo), and reject any undeclared field. -/
def decodeFields (reg : String → EntityType)
    (childType : String → String → String)
    (resolve : String → Option Entity) :
    Record → Entity → Except DumpError Entity
  | [], obj => .ok obj
  | (attr, rv) :: rest, obj =>
    if attr ∈ (reg obj.etype).instAttr then
      match rv with
      | .scalar v =>
        decodeFields reg childType resolve rest (obj.setattrA attr v)
      | .sublist _ => .error (.typeMismatch attr)
    else if attr ∈ (reg obj.etype).instRel then
      match rv with
      | .scalar sv =>
        match sv with
        | .vstr key =>
          match resolve key with
          | some robj =>
            decodeFields reg childType resolve rest (obj.setrel attr robj)
          | none => .error (.unresolvedRef key)
        | _ => .error (.typeMismatch attr)
      | .sublist _ => .error (.typeMismatch attr)
    else if attr ∈ (reg obj.etype).instMRel then
      match rv with
      | .sublist rs =>
        match decodeChildren reg childType resolve rs
            (childType obj.etype attr) with
        | .ok robjs =>
          decodeFields reg childType resolve rest (obj.appendmrel attr robjs)
        | .error err => .error err
      | .scalar _ => .error (.typeMismatch attr)
    else .error (.unknownField attr obj.etype)
termination_by d _ => sizeOf d

/-- Decode each child record of a to-many relation in input order. -/
def decodeChildren (reg : String → EntityType)
    (childType : String → String → String)
    (resolve : String → Option Entity) :
    List (List (String × RValue)) → String → Except DumpError (List Entity)
  | [], _ => .ok []
  | rd :: rest, t =>
    match decodeFields reg childType resolve rd (.mk t [] [] []) with
    | .ok robj =>
      match decodeChildren reg childType resolve rest t with
      | .ok robjs => .ok (robj :: robjs)
      | .error err => .error err
    | .error err => .error err
termination_by rs _ => sizeOf rs

end

/-- Create an entity object from a dict of attributes (dict2entity of
dumpfile_yaml.py): a fresh object of the requested type, whose fields are
filled in from the record. -/
def dict2entity (reg : String → EntityType)
    (childType : String → String → String)
    (resolve : String → Option Entity) (d : Record) (objtype : String) :
    Except DumpError Entity :=
  decodeFields reg childType resolve d (.mk objtype [] [] [])

/-- A data chunk of the dump file: mapping from entity type tag to a
mapping from key to record. -/
abbrev Chunk := List (String × List (String × Record))

/-- Decode the records of one entity type of a chunk in order, pairing
each with its key. -/
def decodeItems (reg : String → EntityType)
    (childType : String → String → String)
    (resolve : String → Option Entity) (name : String) :
    List (String × Record) → Except DumpError (List (String × Entity))
  | [] => .ok []
  | (key, d) :: rest =>
    match dict2entity reg childType resolve d name with
    | .ok obj =>
      match decodeItems reg childType resolve name rest with
      | .ok l => .ok ((key, obj) :: l)
      | .error err => .error err
    | .error err => .error err

/-- The iteration of YAMLDumpFileReader.getobjs over a fixed list of type
names: for each name in order that is present in the chunk, decode and
yield all of its records. -/
def getobjsFrom (reg : String → EntityType)
    (childType : String → String → String)
    (resolve : String → Option Entity) (data : Chunk) :
    List String → Except DumpError (List (String × Entity))
  | [] => .ok []
  | name :: rest =>
    match data.lookup name with
    | none => getobjsFrom reg childType resolve data rest
    | some items =>
      match decodeItems reg childType resolve name items with
      | .ok l1 =>
        match getobjsFrom reg childType resolve data rest with
        | .ok l2 => .ok (l1 ++ l2)
        | .error err => .error err
      | .error err => .error err

/-- Iterate over the objects in a data chunk
(YAMLDumpFileReader.getobjs): the entity types are processed in the fixed
order of entitytypes. -/
def getobjs (reg : String → EntityType)
    (childType : String → String → String)
    (resolve : String → Option Entity) (data : Chunk) :
    Except DumpError (List (String × Entity)) :=
  getobjsFrom reg childType resolve data entitytypes

/-- The state of a YAMLDumpFileWriter: the sequence of chunks written to
the output stream so far, and the current staged chunk self.data. -/
structure YAMLDumpFileWriter where
  outfile : List Chunk
  data : Chunk

/-- Start a new data chunk (YAMLDumpFileWriter.startdata): if the current
chunk contains any data, write it to the dump file; in any case the
staging area is reset to empty. -/
def YAMLDumpFileWriter.startdata (w : YAMLDumpFileWriter) :
    YAMLDumpFileWriter :=
  { outfile := if w.data.length ≠ 0 then w.outfile ++ [w.data] else w.outfile,
    data := [] }

/-- Add an entity object to the current data chunk
(YAMLDumpFileWriter.add). -/
def YAMLDumpFileWriter.add (reg : String → EntityType)
    (keyOf : Entity → String) (sk : Entity → String)
    (w : YAMLDumpFileWriter) (tag key : String) (obj : Entity) :
    Except DumpError YAMLDumpFileWriter :=
  if tag ∉ entitytypes then .error (.unknownEntityType tag)
  else
    .ok { w with
          data := setassoc w.data tag
            (setassoc ((w.data.lookup tag).getD []) key
              (entity2dict reg keyOf sk obj)) }

/-- Finalize the dump file (YAMLDumpFileWriter.finalize): flush any
remaining staged records. -/
def YAMLDumpFileWriter.finalize (w : YAMLDumpFileWriter) :
    YAMLDumpFileWriter :=
  w.startdata

/-!
Infrastructure lemmas about association lists and the record segments
produced by the encoder.
-/

theorem lookup_append {β : Type _} (a : String) (l1 l2 : List (String × β)) :
    (l1 ++ l2).lookup a =
      match l1.lookup a with
      | some v => some v
      | none => l2.lookup a := by
  induction l1 with
  | nil => simp [List.lookup]
  | cons p rest ih =>
    obtain ⟨k, w⟩ := p
    by_cases hk : a = k
    · subst hk
      simp [List.lookup]
    · have hk2 : (a == k) = false := by simpa using hk
      simp only [List.cons_append, List.lookup, hk2]
      exact ih

theorem lookup_eq_none_of_fst_ne {β : Type _} {a : String}
    {l : List (String × β)} (h : ∀ p ∈ l, p.1 ≠ a) : l.lookup a = none := by
  induction l with
  | nil => simp [List.lookup]
  | cons p rest ih =>
    obtain ⟨k, w⟩ := p
    have hk : (a == k) = false := by
      have := h (k, w) (List.mem_cons_self _ _)
      simp only [beq_eq_false_iff_ne, ne_eq]
      intro hak
      exact this hak.symm
    simp only [List.lookup, hk]
    exact ih (fun p hp => h p (List.mem_cons_of_mem _ hp))

theorem lookup_setassoc_same {β : Type _} (a : String) (v : β) :
    ∀ (l : List (String × β)), (setassoc l a v).lookup a = some v := by
  intro l
  induction l with
  | nil => simp [setassoc, List.lookup]
  | cons p rest ih =>
    obtain ⟨k, w⟩ := p
    by_cases hk : k = a
    · subst hk
      simp [setassoc, List.lookup]
    · have hk2 : (a == k) = false := by
        simp only [beq_eq_false_iff_ne, ne_eq]
        intro hak
        exact hk hak.symm
      simp only [setassoc, if_neg hk, List.lookup, hk2]
      exact ih

theorem lookup_setassoc_ne {β : Type _} {a b : String} (v : β)
    (hab : b ≠ a) :
    ∀ (l : List (String × β)), (setassoc l a v).lookup b = l.lookup b := by
  intro l
  have hba : (b == a) = false := by simpa using hab
  induction l with
  | nil => simp [setassoc, List.lookup, hba]
  | cons p rest ih =>
    obtain ⟨k, w⟩ := p
    by_cases hk : k = a
    · subst hk
      simp [setassoc, List.lookup, hba]
    · by_cases hkb : b = k
      · subst hkb
        simp [setassoc, if_neg hk, List.lookup]
      · have hkb2 : (b == k) = false := by simpa using hkb
        simp only [setassoc, if_neg hk, List.lookup, hkb2]
        exact ih

theorem etype_setattrA (e : Entity) (a : String) (v : Value) :
    (e.setattrA a v).etype = e.etype := rfl

theorem getattrA_setattrA_same (e : Entity) (a : String) (v : Value) :
    (e.setattrA a v).getattrA a = v := by
  simp [Entity.setattrA, Entity.getattrA, Entity.attrs, lookup_setassoc_same]

theorem getattrA_setattrA_ne (e : Entity) {a b : String} (v : Value)
    (h : b ≠ a) : (e.setattrA a v).getattrA b = e.getattrA b := by
  simp [Entity.setattrA, Entity.getattrA, Entity.attrs,
        lookup_setassoc_ne v h]

theorem getrel_setrel_same (e : Entity) (a : String) (o : Entity) :
    (e.setrel a o).getrel a = some o := by
  simp [Entity.setrel, Entity.getrel, Entity.rels, lookup_setassoc_same]

theorem getrel_setrel_ne (e : Entity) {a b : String} (o : Entity)
    (h : b ≠ a) : (e.setrel a o).getrel b = e.getrel b := by
  simp [Entity.setrel, Entity.getrel, Entity.rels, lookup_setassoc_ne o h]

theorem getmrel_appendmrel_same (e : Entity) (a : String) (cs : List Entity) :
    (e.appendmrel a cs).getmrel a = e.getmrel a ++ cs := by
  simp [Entity.appendmrel, Entity.getmrel, Entity.mrels, lookup_setassoc_same]

theorem getmrel_appendmrel_ne (e : Entity) {a b : String} (cs : List Entity)
    (h : b ≠ a) : (e.appendmrel a cs).getmrel b = e.getmrel b := by
  simp [Entity.appendmrel, Entity.getmrel, Entity.mrels,
        lookup_setassoc_ne _ h]

/-- Well-formedness of an entity type declaration: no duplicate names, the
three field categories are pairwise disjoint, and the identity attribute is
not declared as a relation.  Every type of the registry satisfies this. -/
def WFType (ty : EntityType) : Prop :=
  ty.instAttr.Nodup ∧ ty.instRel.Nodup ∧ ty.instMRel.Nodup ∧
  (∀ a ∈ ty.instAttr, a ∉ ty.instRel ∧ a ∉ ty.instMRel) ∧
  (∀ a ∈ ty.instRel, a ∉ ty.instMRel) ∧
  "id" ∉ ty.instRel ∧ "id" ∉ ty.instMRel

instance (ty : EntityType) : Decidable (WFType ty) := by
  unfold WFType
  infer_instance

theorem fst_mem_encodeAttrs {e : Entity} {names : List String}
    {p : String × RValue} (h : p ∈ encodeAttrs e names) :
    p.1 ∈ names ∧ p.1 ≠ "id" ∧
      ∃ v, scalar2yaml (e.getattrA p.1) = some v ∧ p.2 = .scalar v := by
  unfold encodeAttrs at h
  obtain ⟨a, ha, heq⟩ := List.mem_filterMap.mp h
  by_cases hid : a = "id"
  · simp [hid] at heq
  · rw [if_neg hid] at heq
    cases hv : scalar2yaml (e.getattrA a) with
    | none => rw [hv] at heq; simp at heq
    | some v =>
      rw [hv] at heq
      have heq2 : (a, RValue.scalar v) = p := by simpa using heq
      subst heq2
      exact ⟨ha, hid, v, hv, rfl⟩

theorem fst_mem_encodeRels {keyOf : Entity → String} {e : Entity}
    {names : List String} {p : String × RValue}
    (h : p ∈ encodeRels keyOf e names) :
    p.1 ∈ names ∧
      ∃ o, e.getrel p.1 = some o ∧ p.2 = .scalar (.vstr (keyOf o)) := by
  unfold encodeRels at h
  obtain ⟨a, ha, heq⟩ := List.mem_filterMap.mp h
  cases ho : e.getrel a with
  | none => rw [ho] at heq; simp at heq
  | some o =>
    rw [ho] at heq
    have heq2 : (a, RValue.scalar (Value.vstr (keyOf o))) = p := by simpa using heq
    subst heq2
    exact ⟨ha, o, ho, rfl⟩

theorem fst_mem_encodeMRels {reg : String → EntityType}
    {keyOf sk : Entity → String} {e : Entity} {names : List String}
    {p : String × RValue} (h : p ∈ encodeMRels reg keyOf sk e names) :
    p.1 ∈ names ∧ e.getmrel p.1 ≠ [] ∧
      p.2 = .sublist
        (encodeList reg keyOf sk ((e.getmrel p.1).mergeSort (skle sk))) := by
  induction names with
  | nil => simp [encodeMRels] at h
  | cons a rest ih =>
    rw [encodeMRels] at h
    rcases List.mem_append.mp h with h1 | h2
    · by_cases hl : 0 < (e.getmrel a).length
      · rw [dif_pos hl] at h1
        simp only [List.mem_singleton] at h1
        subst h1
        refine ⟨List.mem_cons_self _ _, ?_, rfl⟩
        intro hnil
        rw [hnil] at hl
        simp at hl
      · rw [dif_neg hl] at h1
        simp at h1
    · obtain ⟨hm, hne, hv⟩ := ih h2
      exact ⟨List.mem_cons_of_mem _ hm, hne, hv⟩

theorem mem_entity2dict {reg : String → EntityType}
    {keyOf sk : Entity → String} {e : Entity} {p : String × RValue}
    (h : p ∈ entity2dict reg keyOf sk e) :
    p ∈ encodeAttrs e (reg e.etype).instAttr ∨
    p ∈ encodeRels keyOf e (reg e.etype).instRel ∨
    p ∈ encodeMRels reg keyOf sk e (reg e.etype).instMRel := by
  rw [entity2dict] at h
  rcases List.mem_append.mp h with h1 | h2
  · rcases List.mem_append.mp h1 with h3 | h4
    · exact Or.inl h3
    · exact Or.inr (Or.inl h4)
  · exact Or.inr (Or.inr h2)

theorem lookup_encodeAttrs (e : Entity) (names : List String) (a : String) :
    (encodeAttrs e names).lookup a =
      if a ∈ names ∧ a ≠ "id"
      then (scalar2yaml (e.getattrA a)).map RValue.scalar
      else none := by
  induction names with
  | nil => simp [encodeAttrs, List.lookup]
  | cons b rest ih =>
    rw [encodeAttrs, List.filterMap_cons]
    by_cases hb : b = "id"
    · subst hb
      rw [if_pos rfl]
      rw [encodeAttrs] at ih
      rw [ih]
      by_cases ha : a = "id"
      · subst ha
        simp
      · simp [ha]
    · rw [if_neg hb]
      cases hv : scalar2yaml (e.getattrA b) with
      | none =>
        simp only [Option.map_none']
        rw [encodeAttrs] at ih
        rw [ih]
        by_cases hab : a = b
        · subst hab
          by_cases har : a ∈ rest
          · simp [har, hb, hv]
          · simp [har, hb, hv]
        · simp [List.mem_cons, hab]
      | some v =>
        simp only [Option.map_some']
        by_cases hab : a = b
        · subst hab
          simp [List.lookup, hb, hv]
        · have hab2 : (a == b) = false := by simpa using hab
          simp only [List.lookup, hab2]
          rw [encodeAttrs] at ih
          rw [ih]
          simp [List.mem_cons, hab]

theorem lookup_encodeRels (keyOf : Entity → String) (e : Entity)
    (names : List String) (a : String) :
    (encodeRels keyOf e names).lookup a =
      if a ∈ names
      then (e.getrel a).map (fun o => RValue.scalar (.vstr (keyOf o)))
      else none := by
  induction names with
  | nil => simp [encodeRels, List.lookup]
  | cons b rest ih =>
    rw [encodeRels, List.filterMap_cons]
    cases ho : e.getrel b with
    | none =>
      simp only [Option.map_none']
      rw [encodeRels] at ih
      rw [ih]
      by_cases hab : a = b
      · subst hab
        by_cases har : a ∈ rest
        · simp [har, ho]
        · simp [har, ho]
      · simp [List.mem_cons, hab]
    | some o =>
      simp only [Option.map_some']
      by_cases hab : a = b
      · subst hab
        simp [List.lookup, ho]
      · have hab2 : (a == b) = false := by simpa using hab
        simp only [List.lookup, hab2]
        rw [encodeRels] at ih
        rw [ih]
        simp [List.mem_cons, hab]

theorem lookup_encodeMRels (reg : String → EntityType)
    (keyOf sk : Entity → String) (e : Entity) (names : List String)
    (a : String) :
    (encodeMRels reg keyOf sk e names).lookup a =
      if a ∈ names ∧ 0 < (e.getmrel a).length
      then some (RValue.sublist
        (encodeList reg keyOf sk ((e.getmrel a).mergeSort (skle sk))))
      else none := by
  induction names with
  | nil => simp [encodeMRels, List.lookup]
  | cons b rest ih =>
    rw [encodeMRels]
    by_cases hl : 0 < (e.getmrel b).length
    · rw [dif_pos hl]
      by_cases hab : a = b
      · subst hab
        simp [List.lookup, hl]
      · have hab2 : (a == b) = false := by simpa using hab
        simp only [List.cons_append, List.append_eq, List.nil_append,
                   List.lookup, hab2]
        rw [ih]
        simp [List.mem_cons, hab]
    · rw [dif_neg hl]
      simp only [List.nil_append]
      rw [ih]
      by_cases hab : a = b
      · subst hab
        simp [hl]
      · simp [List.mem_cons, hab]

/-- Lookup of a declared plain attribute in the full encoded record, under
well-formedness of the type declaration. -/
theorem lookup_entity2dict_attr {reg : String → EntityType}
    (keyOf sk : Entity → String) {e : Entity} {a : String}
    (hWF : WFType (reg e.etype)) (ha : a ∈ (reg e.etype).instAttr) :
    (entity2dict reg keyOf sk e).lookup a =
      if a = "id" then none
      else (scalar2yaml (e.getattrA a)).map RValue.scalar := by
  obtain ⟨-, -, -, hdisj, -, -, -⟩ := hWF
  have hnr : a ∉ (reg e.etype).instRel := (hdisj a ha).1
  have hnm : a ∉ (reg e.etype).instMRel := (hdisj a ha).2
  rw [entity2dict, lookup_append, lookup_append, lookup_encodeAttrs,
      lookup_encodeRels, lookup_encodeMRels]
  by_cases hid : a = "id"
  · subst hid
    simp [hnr, hnm]
  · simp only [ha, hid, ne_eq, not_false_eq_true, and_self, if_true,
               hnr, false_and, if_false, hnm]
    cases scalar2yaml (e.getattrA a) <;> simp

/-- Lookup of a declared to-one relation in the full encoded record, under
well-formedness of the type declaration. -/
theorem lookup_entity2dict_rel {reg : String → EntityType}
    (keyOf sk : Entity → String) {e : Entity} {a : String}
    (hWF : WFType (reg e.etype)) (ha : a ∈ (reg e.etype).instRel) :
    (entity2dict reg keyOf sk e).lookup a =
      (e.getrel a).map (fun o => RValue.scalar (.vstr (keyOf o))) := by
  obtain ⟨-, -, -, hdisj, hrm, -, -⟩ := hWF
  have hna : a ∉ (reg e.etype).instAttr := fun hx => (hdisj a hx).1 ha
  have hnm : a ∉ (reg e.etype).instMRel := hrm a ha
  rw [entity2dict, lookup_append, lookup_append, lookup_encodeAttrs,
      lookup_encodeRels, lookup_encodeMRels]
  simp only [hna, false_and, if_false, ha, if_true, hnm]
  cases e.getrel a <;> simp

/-- Lookup of a declared to-many relation in the full encoded record, under
well-formedness of the type declaration. -/
theorem lookup_entity2dict_mrel {reg : String → EntityType}
    (keyOf sk : Entity → String) {e : Entity} {a : String}
    (hWF : WFType (reg e.etype)) (ha : a ∈ (reg e.etype).instMRel) :
    (entity2dict reg keyOf sk e).lookup a =
      if 0 < (e.getmrel a).length
      then some (RValue.sublist
        (encodeList reg keyOf sk ((e.getmrel a).mergeSort (skle sk))))
      else none := by
  obtain ⟨-, -, -, hdisj, hrm, -, -⟩ := hWF
  have hna : a ∉ (reg e.etype).instAttr := fun hx => (hdisj a hx).2 ha
  have hnr : a ∉ (reg e.etype).instRel := fun hx => hrm a hx ha
  rw [entity2dict, lookup_append, lookup_append, lookup_encodeAttrs,
      lookup_encodeRels, lookup_encodeMRels]
  simp only [hna, false_and, if_false, hnr, ha, true_and]

theorem encodeList_eq_map (reg : String → EntityType)
    (keyOf sk : Entity → String) :
    ∀ l : List Entity,
      encodeList reg keyOf sk l = l.map (entity2dict reg keyOf sk) := by
  intro l
  induction l with
  | nil => rw [encodeList]; simp
  | cons c cs ih => rw [encodeList, ih]; simp

/-- The scalar record values that the spec allows: booleans, integers and
strings; in particular neither an absent value nor a raw datetime
object. -/
def goodScalarValue (v : Value) : Prop :=
  match v with
  | .vbool _ => True
  | .vint _ => True
  | .vstr _ => True
  | _ => False

mutual

/-- A record value of the shape the spec requires: a good scalar or a list
of records all of whose values are recursively of this shape. -/
def goodRValue : RValue → Prop
  | .scalar v => goodScalarValue v
  | .sublist rs => goodRecList rs
termination_by rv => sizeOf rv

/-- All records of a list have good values. -/
def goodRecList : List (List (String × RValue)) → Prop
  | [] => True
  | r :: rest => goodRecFields r ∧ goodRecList rest
termination_by rs => sizeOf rs

/-- All fields of a record have good values. -/
def goodRecFields : List (String × RValue) → Prop
  | [] => True
  | (a, rv) :: rest => goodRValue rv ∧ goodRecFields rest
termination_by r => sizeOf r

end

theorem goodRecFields_iff_forall (r : List (String × RValue)) :
    goodRecFields r ↔ ∀ p ∈ r, goodRValue p.2 := by
  induction r with
  | nil => simp only [goodRecFields]; simp
  | cons p rest ih =>
    obtain ⟨a, rv⟩ := p
    simp only [goodRecFields, ih]
    constructor
    · rintro ⟨h1, h2⟩ q hq
      rcases List.mem_cons.mp hq with hq | hq
      · subst hq; exact h1
      · exact h2 q hq
    · intro h
      exact ⟨h (a, rv) (List.mem_cons_self _ _),
             fun q hq => h q (List.mem_cons_of_mem _ hq)⟩

theorem goodRecList_iff_forall (rs : List (List (String × RValue))) :
    goodRecList rs ↔ ∀ r ∈ rs, goodRecFields r := by
  induction rs with
  | nil => simp only [goodRecList]; simp
  | cons r rest ih =>
    simp only [goodRecList, ih]
    constructor
    · rintro ⟨h1, h2⟩ q hq
      rcases List.mem_cons.mp hq with hq | hq
      · subst hq; exact h1
      · exact h2 q hq
    · intro h
      exact ⟨h r (List.mem_cons_self _ _),
             fun q hq => h q (List.mem_cons_of_mem _ hq)⟩

theorem scalar2yaml_good {v w : Value} (h : scalar2yaml v = some w) :
    goodScalarValue w := by
  cases v with
  | vnone => simp [scalar2yaml] at h
  | vbool b => simp only [scalar2yaml] at h; cases h; trivial
  | vint n => simp only [scalar2yaml] at h; cases h; trivial
  | vstr s => simp only [scalar2yaml] at h; cases h; trivial
  | vother s => simp only [scalar2yaml] at h; cases h; trivial
  | vdatetime d =>
    simp only [scalar2yaml] at h
    by_cases hz : d.hasTzOffset
    · rw [if_pos hz] at h; cases h; trivial
    · rw [if_neg hz] at h; cases h; trivial

theorem sizeOf_entity_pos (e : Entity) : 0 < sizeOf e := by
  obtain ⟨t, a, r, m⟩ := e
  simp

theorem goodRValue_entity2dict_aux (reg : String → EntityType)
    (keyOf sk : Entity → String) :
    ∀ (n : Nat) (e : Entity), sizeOf e ≤ n →
      ∀ p ∈ entity2dict reg keyOf sk e, goodRValue p.2 := by
  intro n
  induction n with
  | zero =>
    intro e he
    have := sizeOf_entity_pos e
    omega
  | succ m ih =>
    intro e he p hp
    rcases mem_entity2dict hp with h1 | h2 | h3
    · obtain ⟨-, -, v, hv, hp2⟩ := fst_mem_encodeAttrs h1
      rw [hp2]
      simp only [goodRValue]
      exact scalar2yaml_good hv
    · obtain ⟨-, o, -, hp2⟩ := fst_mem_encodeRels h2
      rw [hp2]
      simp only [goodRValue]
      trivial
    · obtain ⟨-, -, hp2⟩ := fst_mem_encodeMRels h3
      rw [hp2]
      simp only [goodRValue, goodRecList_iff_forall]
      intro r hr
      rw [encodeList_eq_map] at hr
      obtain ⟨c, hc, hr2⟩ := List.mem_map.mp hr
      have hcm : c ∈ e.getmrel p.1 := List.mem_mergeSort.mp hc
      have hlt : sizeOf c < sizeOf e := sizeOf_mem_getmrel hcm
      subst hr2
      rw [goodRecFields_iff_forall]
      exact ih c (by omega)

/-- C10: every value of a record produced by the encoder is a boolean, an
integer, a string, or a list of nested child records of the same shape; in
particular no record field holds an absent value or a raw datetime
object. -/
theorem claim_C10_record_value_shapes (reg : String → EntityType)
    (keyOf sk : Entity → String) (e : Entity) :
    goodRecFields (entity2dict reg keyOf sk e) := by
  rw [goodRecFields_iff_forall]
  exact goodRValue_entity2dict_aux reg keyOf sk (sizeOf e) e le_rfl

/-- C5: an encoded record contains no field named id, no field for a plain
attribute whose value is absent, no field for a to-one relation whose
target is absent, and no field for a to-many relation whose collection is
empty. -/
theorem claim_C5_encode_omits_absent {reg : String → EntityType}
    (keyOf sk : Entity → String) {e : Entity}
    (hWF : WFType (reg e.etype)) :
    (∀ p ∈ entity2dict reg keyOf sk e, p.1 ≠ "id") ∧
    (∀ a ∈ (reg e.etype).instAttr, e.getattrA a = .vnone →
        ∀ p ∈ entity2dict reg keyOf sk e, p.1 ≠ a) ∧
    (∀ a ∈ (reg e.etype).instRel, e.getrel a = none →
        ∀ p ∈ entity2dict reg keyOf sk e, p.1 ≠ a) ∧
    (∀ a ∈ (reg e.etype).instMRel, e.getmrel a = [] →
        ∀ p ∈ entity2dict reg keyOf sk e, p.1 ≠ a) := by
  obtain ⟨-, -, -, hdisj, hrm, hidr, hidm⟩ := hWF
  refine ⟨?_, ?_, ?_, ?_⟩
  · intro p hp hpid
    rcases mem_entity2dict hp with h1 | h2 | h3
    · exact (fst_mem_encodeAttrs h1).2.1 hpid
    · exact hidr (hpid ▸ (fst_mem_encodeRels h2).1)
    · exact hidm (hpid ▸ (fst_mem_encodeMRels h3).1)
  · intro a ha hnone p hp hpa
    rcases mem_entity2dict hp with h1 | h2 | h3
    · obtain ⟨-, -, v, hv, -⟩ := fst_mem_encodeAttrs h1
      rw [hpa, hnone] at hv
      simp [scalar2yaml] at hv
    · exact (hdisj a ha).1 (hpa ▸ (fst_mem_encodeRels h2).1)
    · exact (hdisj a ha).2 (hpa ▸ (fst_mem_encodeMRels h3).1)
  · intro a ha hnone p hp hpa
    rcases mem_entity2dict hp with h1 | h2 | h3
    · exact (hdisj a ((hpa ▸ (fst_mem_encodeAttrs h1).1))).1 ha
    · obtain ⟨-, o, ho, -⟩ := fst_mem_encodeRels h2
      rw [hpa, hnone] at ho
      cases ho
    · exact hrm a ha (hpa ▸ (fst_mem_encodeMRels h3).1)
  · intro a ha hnil p hp hpa
    rcases mem_entity2dict hp with h1 | h2 | h3
    · exact (hdisj a ((hpa ▸ (fst_mem_encodeAttrs h1).1))).2 ha
    · exact hrm a (hpa ▸ (fst_mem_encodeRels h2).1) ha
    · exact (fst_mem_encodeMRels h3).2.1 (hpa ▸ hnil)

/-- C6: a declared plain attribute holding a timestamp is rendered as an
ISO-8601 string: with the original UTC offset suffix when the value has a
tzinfo whose utcoffset is not None, and as the naive rendering with a Z
suffix appended otherwise. -/
theorem claim_C6_timestamp_rendering {reg : String → EntityType}
    (keyOf sk : Entity → String) {e : Entity} {a : String} {d : Datetime}
    (hWF : WFType (reg e.etype)) (ha : a ∈ (reg e.etype).instAttr)
    (hid : a ≠ "id") (hd : e.getattrA a = .vdatetime d) :
    (entity2dict reg keyOf sk e).lookup a =
      some (.scalar (.vstr
        (match d.tz with
         | some (some off) => d.naiveIso ++ offsetSuffix off
         | _ => d.naiveIso ++ "Z"))) := by
  rw [lookup_entity2dict_attr keyOf sk hWF ha, if_neg hid, hd]
  rcases d with ⟨iso, tz⟩
  rcases tz with - | otz
  · simp [scalar2yaml, Datetime.hasTzOffset, Datetime.isoformat]
  · rcases otz with - | off
    · simp [scalar2yaml, Datetime.hasTzOffset, Datetime.isoformat]
    · simp [scalar2yaml, Datetime.hasTzOffset, Datetime.isoformat]

/-- C7: a non-empty to-many relation is emitted as the list of recursively
encoded children, ordered by a sort of the children on their own sort
keys. -/
theorem claim_C7_children_sorted {reg : String → EntityType}
    (keyOf : Entity → String) {sk : Entity → String} {e : Entity}
    {a : String} (hWF : WFType (reg e.etype))
    (ha : a ∈ (reg e.etype).instMRel) (hne : e.getmrel a ≠ []) :
    ∃ cs : List Entity, cs.Perm (e.getmrel a) ∧
      cs.Pairwise (fun x y => sk x ≤ sk y) ∧
      (entity2dict reg keyOf sk e).lookup a =
        some (.sublist (cs.map (entity2dict reg keyOf sk))) := by
  refine ⟨(e.getmrel a).mergeSort (skle sk), List.mergeSort_perm _ _, ?_, ?_⟩
  · have hs := @List.sorted_mergeSort Entity (skle sk)
      (fun x y z hxy hyz => by
        simp only [skle, decide_eq_true_eq] at hxy hyz ⊢
        exact le_trans hxy hyz)
      (fun x y => by
        simp only [skle, Bool.or_eq_true, decide_eq_true_eq]
        exact le_total (sk x) (sk y))
      (e.getmrel a)
    exact hs.imp (fun h => by simpa [skle] using h)
  · rw [lookup_entity2dict_mrel keyOf sk hWF ha,
        if_pos (List.length_pos.mpr hne), encodeList_eq_map]

/-- C9 (amended): the encoder never fails; it reads only the declared
fields, so every field of the output record is declared by the registry for
the type of the entity, and any further field the entity exposes is
silently ignored. -/
theorem claim_C9_amended_encoder_fields {reg : String → EntityType}
    (keyOf sk : Entity → String) (e : Entity) :
    ∀ p ∈ entity2dict reg keyOf sk e,
      p.1 ∈ (reg e.etype).instAttr ∨ p.1 ∈ (reg e.etype).instRel ∨
      p.1 ∈ (reg e.etype).instMRel := by
  intro p hp
  rcases mem_entity2dict hp with h1 | h2 | h3
  · exact Or.inl (fst_mem_encodeAttrs h1).1
  · exact Or.inr (Or.inl (fst_mem_encodeRels h2).1)
  · exact Or.inr (Or.inr (fst_mem_encodeMRels h3).1)

/-!
Unfolding and structure lemmas for the decoder.
-/

theorem decodeFields_nil {reg : String → EntityType}
    {childType : String → String → String} {resolve : String → Option Entity}
    (obj : Entity) : decodeFields reg childType resolve [] obj = .ok obj := by
  simp only [decodeFields]

theorem decodeFields_cons {reg : String → EntityType}
    {childType : String → String → String} {resolve : String → Option Entity}
    (attr : String) (rv : RValue) (rest : Record) (obj : Entity) :
    decodeFields reg childType resolve ((attr, rv) :: rest) obj =
      if attr ∈ (reg obj.etype).instAttr then
        match rv with
        | .scalar v =>
          decodeFields reg childType resolve rest (obj.setattrA attr v)
        | .sublist _ => .error (.typeMismatch attr)
      else if attr ∈ (reg obj.etype).instRel then
        match rv with
        | .scalar sv =>
          match sv with
          | .vstr key =>
            match resolve key with
            | some robj =>
              decodeFields reg childType resolve rest (obj.setrel attr robj)
            | none => .error (.unresolvedRef key)
          | _ => .error (.typeMismatch attr)
        | .sublist _ => .error (.typeMismatch attr)
      else if attr ∈ (reg obj.etype).instMRel then
        match rv with
        | .sublist rs =>
          match decodeChildren reg childType resolve rs
              (childType obj.etype attr) with
          | .ok robjs =>
            decodeFields reg childType resolve rest (obj.appendmrel attr robjs)
          | .error err => .error err
        | .scalar _ => .error (.typeMismatch attr)
      else .error (.unknownField attr obj.etype) := by
  cases rv with
  | scalar sv => cases sv <;> simp only [decodeFields]
  | sublist rs => simp only [decodeFields]

theorem decodeChildren_nil {reg : String → EntityType}
    {childType : String → String → String} {resolve : String → Option Entity}
    (t : String) : decodeChildren reg childType resolve [] t = .ok [] := by
  simp only [decodeChildren]

theorem decodeChildren_cons {reg : String → EntityType}
    {childType : String → String → String} {resolve : String → Option Entity}
    (rd : List (String × RValue)) (rest : List (List (String × RValue)))
    (t : String) :
    decodeChildren reg childType resolve (rd :: rest) t =
      match decodeFields reg childType resolve rd (.mk t [] [] []) with
      | .ok robj =>
        match decodeChildren reg childType resolve rest t with
        | .ok robjs => .ok (robj :: robjs)
        | .error err => .error err
      | .error err => .error err := by
  simp only [decodeChildren]

theorem decodeFields_append {reg : String → EntityType}
    {childType : String → String → String}
    {resolve : String → Option Entity} :
    ∀ (d1 d2 : Record) (obj : Entity),
      decodeFields reg childType resolve (d1 ++ d2) obj =
        match decodeFields reg childType resolve d1 obj with
        | .ok obj2 => decodeFields reg childType resolve d2 obj2
        | .error err => .error err := by
  intro d1
  induction d1 with
  | nil =>
    intro d2 obj
    rw [List.nil_append, decodeFields_nil]
  | cons p rest ih =>
    intro d2 obj
    obtain ⟨attr, rv⟩ := p
    rw [List.cons_append, decodeFields_cons, decodeFields_cons]
    by_cases h1 : attr ∈ (reg obj.etype).instAttr
    · rw [if_pos h1, if_pos h1]
      cases rv with
      | scalar v => exact ih d2 _
      | sublist rs => rfl
    · rw [if_neg h1, if_neg h1]
      by_cases h2 : attr ∈ (reg obj.etype).instRel
      · rw [if_pos h2, if_pos h2]
        cases rv with
        | scalar sv =>
          cases sv with
          | vstr key =>
            dsimp only
            cases resolve key with
            | some robj => exact ih d2 _
            | none => rfl
          | vnone => rfl
          | vbool b => rfl
          | vint n => rfl
          | vdatetime d => rfl
          | vother s => rfl
        | sublist rs => rfl
      · rw [if_neg h2, if_neg h2]
        by_cases h3 : attr ∈ (reg obj.etype).instMRel
        · rw [if_pos h3, if_pos h3]
          cases rv with
          | sublist rs =>
            dsimp only
            cases decodeChildren reg childType resolve rs
                (childType obj.etype attr) with
            | ok robjs => exact ih d2 _
            | error err => rfl
          | scalar sv => rfl
        · rw [if_neg h3, if_neg h3]

theorem etype_setrel (e : Entity) (a : String) (o : Entity) :
    (e.setrel a o).etype = e.etype := rfl

theorem etype_appendmrel (e : Entity) (a : String) (cs : List Entity) :
    (e.appendmrel a cs).etype = e.etype := rfl

theorem decodeFields_etype_ok {reg : String → EntityType}
    {childType : String → String → String}
    {resolve : String → Option Entity} :
    ∀ (d : Record) (obj obj2 : Entity),
      decodeFields reg childType resolve d obj = .ok obj2 →
        obj2.etype = obj.etype := by
  intro d
  induction d with
  | nil =>
    intro obj obj2 h
    rw [decodeFields_nil] at h
    cases h
    rfl
  | cons p rest ih =>
    intro obj obj2 h
    obtain ⟨attr, rv⟩ := p
    rw [decodeFields_cons] at h
    by_cases h1 : attr ∈ (reg obj.etype).instAttr
    · rw [if_pos h1] at h
      cases rv with
      | scalar v =>
        have := ih _ _ h
        rw [this, etype_setattrA]
      | sublist rs => cases h
    · rw [if_neg h1] at h
      by_cases h2 : attr ∈ (reg obj.etype).instRel
      · rw [if_pos h2] at h
        cases rv with
        | scalar sv =>
          cases sv with
          | vstr key =>
            dsimp only at h
            cases hres : resolve key with
            | some robj =>
              rw [hres] at h
              have := ih _ _ h
              rw [this, etype_setrel]
            | none => rw [hres] at h; cases h
          | vnone => cases h
          | vbool b => cases h
          | vint n => cases h
          | vdatetime dd => cases h
          | vother s => cases h
        | sublist rs => cases h
      · rw [if_neg h2] at h
        by_cases h3 : attr ∈ (reg obj.etype).instMRel
        · rw [if_pos h3] at h
          cases rv with
          | sublist rs =>
            dsimp only at h
            cases hch : decodeChildren reg childType resolve rs
                (childType obj.etype attr) with
            | ok robjs =>
              rw [hch] at h
              have := ih _ _ h
              rw [this, etype_appendmrel]
            | error err => rw [hch] at h; cases h
          | scalar sv => cases h
        · rw [if_neg h3] at h
          cases h

/-- C8: the writer flushes the staged chunk to the output if and only if it
is non-empty, always leaves the staging area empty afterwards, and a second
finalize with nothing staged appends no further output chunk. -/
theorem claim_C8_startdata_finalize (w : YAMLDumpFileWriter) :
    (w.startdata.outfile =
      if w.data.length ≠ 0 then w.outfile ++ [w.data] else w.outfile) ∧
    w.startdata.data = [] ∧
    w.finalize.finalize = w.finalize := by
  refine ⟨rfl, rfl, ?_⟩
  unfold YAMLDumpFileWriter.finalize YAMLDumpFileWriter.startdata
  simp

/-- The position of a type tag in a list of type names; tags further to the
right get strictly larger indices. -/
def typeIndex : List String → String → Nat
  | [], _ => 0
  | n :: rest, t => if n = t then 0 else typeIndex rest t + 1

theorem decodeItems_ok_types {reg : String → EntityType}
    {childType : String → String → String} {resolve : String → Option Entity}
    {name : String} :
    ∀ {items : List (String × Record)} {l : List (String × Entity)},
      decodeItems reg childType resolve name items = .ok l →
        ∀ p ∈ l, p.2.etype = name := by
  intro items
  induction items with
  | nil =>
    intro l h p hp
    simp only [decodeItems] at h
    cases h
    simp at hp
  | cons q rest ih =>
    intro l h p hp
    obtain ⟨key, d⟩ := q
    simp only [decodeItems] at h
    cases hobj : dict2entity reg childType resolve d name with
    | error err => rw [hobj] at h; cases h
    | ok obj =>
      rw [hobj] at h
      cases hrest : decodeItems reg childType resolve name rest with
      | error err => rw [hrest] at h; cases h
      | ok l2 =>
        rw [hrest] at h
        cases h
        rcases List.mem_cons.mp hp with hp | hp
        · subst hp
          exact decodeFields_etype_ok d _ _ hobj
        · exact ih hrest p hp

theorem getobjsFrom_types_sorted {reg : String → EntityType}
    {childType : String → String → String} {resolve : String → Option Entity}
    {data : Chunk} :
    ∀ (names : List String), names.Nodup →
      ∀ {l : List (String × Entity)},
        getobjsFrom reg childType resolve data names = .ok l →
          (∀ p ∈ l, p.2.etype ∈ names) ∧
          l.Pairwise (fun p q =>
            typeIndex names p.2.etype ≤ typeIndex names q.2.etype) := by
  intro names
  induction names with
  | nil =>
    intro hnd l h
    simp only [getobjsFrom] at h
    cases h
    simp
  | cons name rest ih =>
    intro hnd l h
    have hnotin : name ∉ rest := (List.nodup_cons.mp hnd).1
    have hndrest : rest.Nodup := (List.nodup_cons.mp hnd).2
    simp only [getobjsFrom] at h
    cases hl : data.lookup name with
    | none =>
      rw [hl] at h
      obtain ⟨htypes, hsorted⟩ := ih hndrest h
      constructor
      · exact fun p hp => List.mem_cons_of_mem _ (htypes p hp)
      · refine hsorted.imp_of_mem ?_
        intro p q hp hq hle
        have hpne : ¬ name = p.2.etype := fun hx =>
          hnotin (hx ▸ htypes p hp)
        have hqne : ¬ name = q.2.etype := fun hx =>
          hnotin (hx ▸ htypes q hq)
        simp only [typeIndex, if_neg hpne, if_neg hqne]
        omega
    | some items =>
      rw [hl] at h
      dsimp only at h
      cases hitems : decodeItems reg childType resolve name items with
      | error err => rw [hitems] at h; cases h
      | ok l1 =>
        rw [hitems] at h
        cases hrest : getobjsFrom reg childType resolve data rest with
        | error err => rw [hrest] at h; cases h
        | ok l2 =>
          rw [hrest] at h
          cases h
          obtain ⟨htypes, hsorted⟩ := ih hndrest hrest
          have hl1types : ∀ p ∈ l1, p.2.etype = name :=
            decodeItems_ok_types hitems
          constructor
          · intro p hp
            rcases List.mem_append.mp hp with hp | hp
            · exact (hl1types p hp) ▸ List.mem_cons_self _ _
            · exact List.mem_cons_of_mem _ (htypes p hp)
          · rw [List.pairwise_append]
            refine ⟨?_, ?_, ?_⟩
            · refine List.pairwise_of_forall_mem_list ?_
              intro p hp q hq
              simp only [typeIndex, hl1types p hp, hl1types q hq, if_pos rfl]
              omega
            · refine hsorted.imp_of_mem ?_
              intro p q hp hq hle
              have hpne : ¬ name = p.2.etype := fun hx =>
                hnotin (hx ▸ htypes p hp)
              have hqne : ¬ name = q.2.etype := fun hx =>
                hnotin (hx ▸ htypes q hq)
              simp only [typeIndex, if_neg hpne, if_neg hqne]
              omega
            · intro p hp q hq
              have hz : typeIndex (name :: rest) p.2.etype = 0 := by
                simp [typeIndex, hl1types p hp]
              rw [hz]
              exact Nat.zero_le _

/-- C3: on a successful iteration, getobjs yields all entities of one type
before any entity of a type later in the fixed entitytypes order; in
particular facility comes before instrument, instrument before
investigation, investigation before dataset, and dataset before
datafile. -/
theorem claim_C3_reader_type_order {reg : String → EntityType}
    {childType : String → String → String} {resolve : String → Option Entity}
    {data : Chunk} {l : List (String × Entity)}
    (h : getobjs reg childType resolve data = .ok l) :
    (∀ p ∈ l, p.2.etype ∈ entitytypes) ∧
    l.Pairwise (fun p q =>
      typeIndex entitytypes p.2.etype ≤ typeIndex entitytypes q.2.etype) ∧
    typeIndex entitytypes "facility" < typeIndex entitytypes "instrument" ∧
    typeIndex entitytypes "instrument" <
      typeIndex entitytypes "investigation" ∧
    typeIndex entitytypes "investigation" < typeIndex entitytypes "dataset" ∧
    typeIndex entitytypes "dataset" < typeIndex entitytypes "datafile" := by
  have hnd : entitytypes.Nodup := by decide
  obtain ⟨h1, h2⟩ := getobjsFrom_types_sorted entitytypes hnd h
  exact ⟨h1, h2, by decide, by decide, by decide, by decide⟩

theorem getobjsFrom_ignores_unknown {reg : String → EntityType}
    {childType : String → String → String} {resolve : String → Option Entity}
    {tag : String} {items : List (String × Record)} {data : Chunk} :
    ∀ (names : List String), (∀ n ∈ names, n ≠ tag) →
      getobjsFrom reg childType resolve ((tag, items) :: data) names =
        getobjsFrom reg childType resolve data names := by
  intro names
  induction names with
  | nil => intro h; simp only [getobjsFrom]
  | cons name rest ih =>
    intro h
    have hne : name ≠ tag := h name (List.mem_cons_self _ _)
    have hne2 : (name == tag) = false := by simpa using hne
    have hrest := ih (fun n hn => h n (List.mem_cons_of_mem _ hn))
    simp only [getobjsFrom, List.lookup, hne2, hrest]

/-- C4 (amended): the writer rejects a type tag outside the fixed type list
with UnknownEntityTypeError, but the reader does not fail on a chunk entry
with an unknown tag: it silently ignores the entry. -/
theorem claim_C4_amended_unknown_tag {reg : String → EntityType}
    {childType : String → String → String} {resolve : String → Option Entity}
    {tag : String} (h : tag ∉ entitytypes) :
    (∀ (keyOf sk : Entity → String) (w : YAMLDumpFileWriter)
        (key : String) (obj : Entity),
      YAMLDumpFileWriter.add reg keyOf sk w tag key obj =
        .error (.unknownEntityType tag)) ∧
    (∀ (items : List (String × Record)) (data : Chunk),
      getobjs reg childType resolve ((tag, items) :: data) =
        getobjs reg childType resolve data) := by
  constructor
  · intro keyOf sk w key obj
    unfold YAMLDumpFileWriter.add
    rw [if_pos h]
  · intro items data
    unfold getobjs
    exact getobjsFrom_ignores_unknown entitytypes
      (fun n hn hx => h (hx ▸ hn))

/-!
Rejection of undeclared record fields by the decoder (C2).
-/

theorem sizeOf_list_pos {α : Type _} [SizeOf α] (l : List α) :
    0 < sizeOf l := by
  cases l <;> simp <;> omega

theorem decodeFields_not_ok_of_undeclared {reg : String → EntityType}
    {childType : String → String → String}
    {resolve : String → Option Entity} :
    ∀ (d : Record) (obj : Entity) (p : String × RValue), p ∈ d →
      p.1 ∉ (reg obj.etype).instAttr → p.1 ∉ (reg obj.etype).instRel →
      p.1 ∉ (reg obj.etype).instMRel →
      ∀ obj2, decodeFields reg childType resolve d obj ≠ .ok obj2 := by
  intro d
  induction d with
  | nil =>
    intro obj p hp
    simp at hp
  | cons q rest ih =>
    intro obj p hp h1 h2 h3 obj2 h
    obtain ⟨attr, rv⟩ := q
    rw [decodeFields_cons] at h
    rcases List.mem_cons.mp hp with hpq | hpq
    · subst hpq
      rw [if_neg h1, if_neg h2, if_neg h3] at h
      cases h
    · by_cases ha1 : attr ∈ (reg obj.etype).instAttr
      · rw [if_pos ha1] at h
        cases rv with
        | scalar v =>
          dsimp only at h
          exact ih (obj.setattrA attr v) p hpq h1 h2 h3 obj2 h
        | sublist rs => cases h
      · rw [if_neg ha1] at h
        by_cases ha2 : attr ∈ (reg obj.etype).instRel
        · rw [if_pos ha2] at h
          cases rv with
          | scalar sv =>
            cases sv with
            | vstr key =>
              dsimp only at h
              cases hres : resolve key with
              | some robj =>
                rw [hres] at h
                dsimp only at h
                exact ih (obj.setrel attr robj) p hpq h1 h2 h3 obj2 h
              | none => rw [hres] at h; cases h
            | vnone => cases h
            | vbool b => cases h
            | vint n => cases h
            | vdatetime dd => cases h
            | vother s => cases h
          | sublist rs => cases h
        · rw [if_neg ha2] at h
          by_cases ha3 : attr ∈ (reg obj.etype).instMRel
          · rw [if_pos ha3] at h
            cases rv with
            | sublist rs =>
              dsimp only at h
              cases hch : decodeChildren reg childType resolve rs
                  (childType obj.etype attr) with
              | ok robjs =>
                rw [hch] at h
                dsimp only at h
                exact ih (obj.appendmrel attr robjs) p hpq h1 h2 h3 obj2 h
              | error err => rw [hch] at h; cases h
            | scalar sv => cases h
          · rw [if_neg ha3] at h
            cases h

mutual

/-- A record is cleanly shaped for a target type when each of its declared
fields can be processed by the decoder without error: a declared plain
attribute holds a scalar, a declared to-one relation holds a key string
that the resolver can resolve, and a declared to-many relation holds a list
of records that are recursively cleanly shaped for the declared child type.
Undeclared fields are not constrained. -/
def CleanShape (reg : String → EntityType)
    (childType : String → String → String)
    (resolve : String → Option Entity) : Record → String → Prop
  | [], _ => True
  | (attr, rv) :: rest, t =>
    (if attr ∈ (reg t).instAttr then ∃ v, rv = RValue.scalar v
     else if attr ∈ (reg t).instRel then
       ∃ k o, rv = RValue.scalar (.vstr k) ∧ resolve k = some o
     else if attr ∈ (reg t).instMRel then
       match rv with
       | .sublist rs => CleanList reg childType resolve rs (childType t attr)
       | .scalar _ => False
     else True) ∧ CleanShape reg childType resolve rest t
termination_by d _ => sizeOf d

/-- All records of a list are cleanly shaped for the target type. -/
def CleanList (reg : String → EntityType)
    (childType : String → String → String)
    (resolve : String → Option Entity) :
    List (List (String × RValue)) → String → Prop
  | [], _ => True
  | r :: rest, t =>
    CleanShape reg childType resolve r t ∧
    CleanList reg childType resolve rest t
termination_by rs _ => sizeOf rs

end

theorem cleanShape_decode (reg : String → EntityType)
    (childType : String → String → String)
    (resolve : String → Option Entity) :
    ∀ (n : Nat),
      (∀ (d : Record) (t : String) (obj : Entity), sizeOf d ≤ n →
        CleanShape reg childType resolve d t → obj.etype = t →
        (∃ obj2, decodeFields reg childType resolve d obj = .ok obj2) ∨
        (∃ a2 t2, decodeFields reg childType resolve d obj =
          .error (.unknownField a2 t2))) ∧
      (∀ (rs : List (List (String × RValue))) (t : String), sizeOf rs ≤ n →
        CleanList reg childType resolve rs t →
        (∃ l, decodeChildren reg childType resolve rs t = .ok l) ∨
        (∃ a2 t2, decodeChildren reg childType resolve rs t =
          .error (.unknownField a2 t2))) := by
  intro n
  induction n with
  | zero =>
    constructor
    · intro d t obj hd
      have := sizeOf_list_pos d
      omega
    · intro rs t hrs
      have := sizeOf_list_pos rs
      omega
  | succ m ih =>
    constructor
    · intro d t obj hd hclean het
      cases d with
      | nil =>
        rw [decodeFields_nil]
        exact Or.inl ⟨obj, rfl⟩
      | cons q rest =>
        obtain ⟨attr, rv⟩ := q
        rw [CleanShape.eq_def] at hclean
        dsimp only at hclean
        obtain ⟨hhead, hrest⟩ := hclean
        have hszrest : sizeOf rest ≤ m := by
          have h1 : 0 < sizeOf (attr, rv) := by
            simp
          simp at hd
          omega
        rw [decodeFields_cons]
        subst het
        by_cases h1 : attr ∈ (reg obj.etype).instAttr
        · rw [if_pos h1]
          rw [if_pos h1] at hhead
          obtain ⟨v, hv⟩ := hhead
          subst hv
          exact ih.1 rest _ _ hszrest hrest (etype_setattrA obj attr v)
        · rw [if_neg h1]
          rw [if_neg h1] at hhead
          by_cases h2 : attr ∈ (reg obj.etype).instRel
          · rw [if_pos h2]
            rw [if_pos h2] at hhead
            obtain ⟨k, o, hv, hres⟩ := hhead
            subst hv
            dsimp only
            rw [hres]
            exact ih.1 rest _ _ hszrest hrest (etype_setrel obj attr o)
          · rw [if_neg h2]
            rw [if_neg h2] at hhead
            by_cases h3 : attr ∈ (reg obj.etype).instMRel
            · rw [if_pos h3]
              rw [if_pos h3] at hhead
              cases rv with
              | scalar sv => cases hhead
              | sublist rs =>
                dsimp only
                have hszrs : sizeOf rs ≤ m := by
                  simp at hd
                  omega
                rcases ih.2 rs (childType obj.etype attr) hszrs hhead with
                  ⟨l, hl⟩ | ⟨a2, t2, herr⟩
                · rw [hl]
                  exact ih.1 rest _ _ hszrest hrest
                    (etype_appendmrel obj attr l)
                · rw [herr]
                  exact Or.inr ⟨a2, t2, rfl⟩
            · rw [if_neg h3]
              exact Or.inr ⟨attr, obj.etype, rfl⟩
    · intro rs t hrs hclean
      cases rs with
      | nil =>
        rw [decodeChildren_nil]
        exact Or.inl ⟨[], rfl⟩
      | cons rd rest =>
        rw [CleanList] at hclean
        obtain ⟨hhead, hrest⟩ := hclean
        have hszrd : sizeOf rd ≤ m := by
          simp at hrs
          have := sizeOf_list_pos rest
          omega
        have hszrest : sizeOf rest ≤ m := by
          simp at hrs
          have := sizeOf_list_pos rd
          omega
        rw [decodeChildren_cons]
        rcases ih.1 rd t (.mk t [] [] []) hszrd hhead rfl with
          ⟨obj2, hok⟩ | ⟨a2, t2, herr⟩
        · rw [hok]
          rcases ih.2 rest t hszrest hrest with ⟨l, hl⟩ | ⟨a2, t2, herr⟩
          · rw [hl]
            exact Or.inl ⟨obj2 :: l, rfl⟩
          · rw [herr]
            exact Or.inr ⟨a2, t2, rfl⟩
        · rw [herr]
          exact Or.inr ⟨a2, t2, rfl⟩

/-- C2: a record containing a field not declared for the target type is
never decoded into an entity, and when the rest of the record is cleanly
shaped (so that no other error can strike first), decoding fails precisely
with an unknown-field error.  Since decoding fails, nothing is handed to
the client for creation. -/
theorem claim_C2_unknown_field_rejected {reg : String → EntityType}
    {childType : String → String → String} {resolve : String → Option Entity}
    {d : Record} {t : String} {p : String × RValue} (hmem : p ∈ d)
    (h1 : p.1 ∉ (reg t).instAttr) (h2 : p.1 ∉ (reg t).instRel)
    (h3 : p.1 ∉ (reg t).instMRel) :
    (∀ obj2, dict2entity reg childType resolve d t ≠ .ok obj2) ∧
    (CleanShape reg childType resolve d t →
      ∃ a2 t2, dict2entity reg childType resolve d t =
        .error (.unknownField a2 t2)) := by
  constructor
  · intro obj2
    exact decodeFields_not_ok_of_undeclared d (.mk t [] [] []) p hmem
      h1 h2 h3 obj2
  · intro hclean
    rcases (cleanShape_decode reg childType resolve (sizeOf d)).1 d t
        (.mk t [] [] []) le_rfl hclean rfl with ⟨obj2, hok⟩ | herr
    · exact absurd hok
        (decodeFields_not_ok_of_undeclared d (.mk t [] [] []) p hmem
          h1 h2 h3 obj2)
    · exact herr

/-!
Round-trip machinery (C1): input hypotheses and observational equivalence.
-/

theorem sizeOf_getmrel_lt_always (e : Entity) (a : String) :
    sizeOf (e.getmrel a) < sizeOf e := by
  by_cases h : e.getmrel a = []
  · rw [h]
    obtain ⟨t, at_, r, m⟩ := e
    have h1 := sizeOf_list_pos at_
    have h2 := sizeOf_list_pos r
    have h3 := sizeOf_list_pos m
    simp
    omega
  · exact sizeOf_getmrel_lt h

/-- Scalar values that the encoder conversion chain maps to themselves (or
skips): absent, boolean, integer and string values.  Raw datetimes and
other scalars are excluded: the encoder rewrites those to strings. -/
def normalValue (v : Value) : Prop :=
  match v with
  | .vnone => True
  | .vbool _ => True
  | .vint _ => True
  | .vstr _ => True
  | _ => False

theorem scalar2yaml_of_normal {v : Value} (h : normalValue v)
    (hne : v ≠ .vnone) : scalar2yaml v = some v := by
  cases v with
  | vnone => exact absurd rfl hne
  | vbool b => rfl
  | vint n => rfl
  | vstr s => rfl
  | vdatetime d => cases h
  | vother s => cases h

mutual

/-- The hypotheses of the round-trip property for one entity and,
recursively, its to-many children: the type declaration is well-formed,
every exposed field is declared, every exposed attribute value is already
in normalized form (no raw datetime or stringified scalar), the resolver
used on the decoding side maps the key of each to-one target back to that
same target, and each child of a to-many relation carries exactly the child
type that the client metadata declares for that relation. -/
def GoodInput (reg : String → EntityType) (keyOf : Entity → String)
    (childType : String → String → String)
    (resolve : String → Option Entity) (e : Entity) : Prop :=
  WFType (reg e.etype) ∧
  (∀ p ∈ e.attrs, p.1 ∈ (reg e.etype).instAttr) ∧
  (∀ p ∈ e.rels, p.1 ∈ (reg e.etype).instRel) ∧
  (∀ p ∈ e.mrels, p.1 ∈ (reg e.etype).instMRel) ∧
  (∀ p ∈ e.attrs, normalValue p.2) ∧
  (∀ p ∈ e.rels, resolve (keyOf p.2) = some p.2) ∧
  GoodMRels reg keyOf childType resolve e (reg e.etype).instMRel
termination_by (sizeOf e, 1, 0)
decreasing_by
  exact Prod.Lex.right _ (Prod.Lex.left _ _ (by omega))

/-- The children of each listed to-many relation are good inputs of the
declared child type. -/
def GoodMRels (reg : String → EntityType) (keyOf : Entity → String)
    (childType : String → String → String)
    (resolve : String → Option Entity) (e : Entity) : List String → Prop
  | [] => True
  | a :: rest =>
    GoodList reg keyOf childType resolve (e.getmrel a)
      (childType e.etype a) ∧
    GoodMRels reg keyOf childType resolve e rest
termination_by names => (sizeOf e, 0, sizeOf names)
decreasing_by
  · exact Prod.Lex.left _ _ (sizeOf_getmrel_lt_always e a)
  · apply Prod.Lex.right
    apply Prod.Lex.right
    simp

/-- All entities of a list carry the stated type and are good inputs. -/
def GoodList (reg : String → EntityType) (keyOf : Entity → String)
    (childType : String → String → String)
    (resolve : String → Option Entity) : List Entity → String → Prop
  | [], _ => True
  | c :: cs, t =>
    (c.etype = t ∧ GoodInput reg keyOf childType resolve c) ∧
    GoodList reg keyOf childType resolve cs t
termination_by l _ => (sizeOf l, 2, 0)
decreasing_by
  · apply Prod.Lex.left
    simp
    omega
  · apply Prod.Lex.left
    simp

end

theorem GoodMRels_iff_forall (reg : String → EntityType)
    (keyOf : Entity → String) (childType : String → String → String)
    (resolve : String → Option Entity) (e : Entity) :
    ∀ names : List String,
      GoodMRels reg keyOf childType resolve e names ↔
        ∀ a ∈ names, GoodList reg keyOf childType resolve (e.getmrel a)
          (childType e.etype a) := by
  intro names
  induction names with
  | nil => simp only [GoodMRels]; simp
  | cons a rest ih =>
    simp only [GoodMRels, ih]
    constructor
    · rintro ⟨h1, h2⟩ b hb
      rcases List.mem_cons.mp hb with hb | hb
      · subst hb; exact h1
      · exact h2 b hb
    · intro h
      exact ⟨h a (List.mem_cons_self _ _),
             fun b hb => h b (List.mem_cons_of_mem _ hb)⟩

theorem GoodList_iff_forall (reg : String → EntityType)
    (keyOf : Entity → String) (childType : String → String → String)
    (resolve : String → Option Entity) (t : String) :
    ∀ l : List Entity,
      GoodList reg keyOf childType resolve l t ↔
        ∀ c ∈ l, c.etype = t ∧ GoodInput reg keyOf childType resolve c := by
  intro l
  induction l with
  | nil => simp only [GoodList]; simp
  | cons c cs ih =>
    simp only [GoodList, ih]
    constructor
    · rintro ⟨h1, h2⟩ b hb
      rcases List.mem_cons.mp hb with hb | hb
      · subst hb; exact h1
      · exact h2 b hb
    · intro h
      exact ⟨h c (List.mem_cons_self _ _),
             fun b hb => h b (List.mem_cons_of_mem _ hb)⟩

mutual

/-- Observational equivalence of two entities relative to the registry:
same type tag, equal declared plain attribute values apart from the
identity, equal declared to-one relation targets, and for every declared
to-many relation the children of the first are pointwise equivalent to a
permutation of the children of the second. -/
def entityEquiv (reg : String → EntityType) (e1 e2 : Entity) : Prop :=
  e1.etype = e2.etype ∧
  (∀ a ∈ (reg e1.etype).instAttr, a ≠ "id" →
      e1.getattrA a = e2.getattrA a) ∧
  (∀ a ∈ (reg e1.etype).instRel, e1.getrel a = e2.getrel a) ∧
  EquivMRels reg e1 e2 (reg e1.etype).instMRel
termination_by (sizeOf e1, 1, 0)
decreasing_by
  exact Prod.Lex.right _ (Prod.Lex.left _ _ (by omega))

/-- For each listed to-many relation, the children of the first entity are
pointwise equivalent to a permutation of the children of the second. -/
def EquivMRels (reg : String → EntityType) (e1 e2 : Entity) :
    List String → Prop
  | [] => True
  | a :: rest =>
    (∃ cs, cs.Perm (e2.getmrel a) ∧ listEquiv reg (e1.getmrel a) cs) ∧
    EquivMRels reg e1 e2 rest
termination_by names => (sizeOf e1, 0, sizeOf names)
decreasing_by
  · exact Prod.Lex.left _ _ (sizeOf_getmrel_lt_always e1 a)
  · apply Prod.Lex.right
    apply Prod.Lex.right
    simp

/-- Pointwise equivalence of two entity lists. -/
def listEquiv (reg : String → EntityType) : List Entity → List Entity → Prop
  | [], [] => True
  | c1 :: l1, c2 :: l2 => entityEquiv reg c1 c2 ∧ listEquiv reg l1 l2
  | _, _ => False
termination_by l1 _ => (sizeOf l1, 2, 0)
decreasing_by
  · apply Prod.Lex.left
    simp
    omega
  · apply Prod.Lex.left
    simp

end

theorem EquivMRels_iff_forall (reg : String → EntityType) (e1 e2 : Entity) :
    ∀ names : List String,
      EquivMRels reg e1 e2 names ↔
        ∀ a ∈ names, ∃ cs, cs.Perm (e2.getmrel a) ∧
          listEquiv reg (e1.getmrel a) cs := by
  intro names
  induction names with
  | nil => simp only [EquivMRels]; simp
  | cons a rest ih =>
    simp only [EquivMRels, ih]
    constructor
    · rintro ⟨h1, h2⟩ b hb
      rcases List.mem_cons.mp hb with hb | hb
      · subst hb; exact h1
      · exact h2 b hb
    · intro h
      exact ⟨h a (List.mem_cons_self _ _),
             fun b hb => h b (List.mem_cons_of_mem _ hb)⟩

theorem rels_setattrA (e : Entity) (a : String) (v : Value) :
    (e.setattrA a v).rels = e.rels := rfl

theorem mrels_setattrA (e : Entity) (a : String) (v : Value) :
    (e.setattrA a v).mrels = e.mrels := rfl

theorem attrs_setrel (e : Entity) (a : String) (o : Entity) :
    (e.setrel a o).attrs = e.attrs := rfl

theorem mrels_setrel (e : Entity) (a : String) (o : Entity) :
    (e.setrel a o).mrels = e.mrels := rfl

theorem attrs_appendmrel (e : Entity) (a : String) (cs : List Entity) :
    (e.appendmrel a cs).attrs = e.attrs := rfl

theorem rels_appendmrel (e : Entity) (a : String) (cs : List Entity) :
    (e.appendmrel a cs).rels = e.rels := rfl

theorem getattrA_congr {e1 e2 : Entity} (h : e1.attrs = e2.attrs)
    (b : String) : e1.getattrA b = e2.getattrA b := by
  unfold Entity.getattrA
  rw [h]

theorem getrel_congr {e1 e2 : Entity} (h : e1.rels = e2.rels)
    (b : String) : e1.getrel b = e2.getrel b := by
  unfold Entity.getrel
  rw [h]

theorem getmrel_congr {e1 e2 : Entity} (h : e1.mrels = e2.mrels)
    (b : String) : e1.getmrel b = e2.getmrel b := by
  unfold Entity.getmrel
  rw [h]

theorem encodeAttrs_cons_id (e : Entity) (rest : List String) :
    encodeAttrs e ("id" :: rest) = encodeAttrs e rest := by
  simp [encodeAttrs, List.filterMap_cons]

theorem encodeAttrs_cons_none (e : Entity) {a : String} (rest : List String)
    (hid : a ≠ "id") (hv : scalar2yaml (e.getattrA a) = none) :
    encodeAttrs e (a :: rest) = encodeAttrs e rest := by
  simp [encodeAttrs, List.filterMap_cons, hid, hv]

theorem encodeAttrs_cons_some (e : Entity) {a : String} (rest : List String)
    {v : Value} (hid : a ≠ "id")
    (hv : scalar2yaml (e.getattrA a) = some v) :
    encodeAttrs e (a :: rest) =
      (a, RValue.scalar v) :: encodeAttrs e rest := by
  simp [encodeAttrs, List.filterMap_cons, hid, hv]

/-- Decoding the attribute segment of an encoded record: it always
succeeds, leaves type, relations and to-many relations of the accumulated
object unchanged, and sets exactly the emitted attribute values. -/
theorem decode_encodeAttrs {reg : String → EntityType}
    {childType : String → String → String} {resolve : String → Option Entity}
    (e : Entity) :
    ∀ (names : List String) (obj : Entity),
      (∀ a ∈ names, a ∈ (reg obj.etype).instAttr) →
      ∃ obj2,
        decodeFields reg childType resolve (encodeAttrs e names) obj =
          .ok obj2 ∧
        obj2.etype = obj.etype ∧ obj2.rels = obj.rels ∧
        obj2.mrels = obj.mrels ∧
        (∀ b, obj2.getattrA b =
          match (encodeAttrs e names).lookup b with
          | some (.scalar v) => v
          | _ => obj.getattrA b) := by
  intro names
  induction names with
  | nil =>
    intro obj hnames
    refine ⟨obj, ?_, rfl, rfl, rfl, ?_⟩
    · have h0 : encodeAttrs e [] = [] := rfl
      rw [h0, decodeFields_nil]
    · intro b
      have h0 : encodeAttrs e [] = [] := rfl
      rw [h0]
      simp [List.lookup]
  | cons a rest ih =>
    intro obj hnames
    have hmem : a ∈ (reg obj.etype).instAttr :=
      hnames a (List.mem_cons_self _ _)
    have hnames2 : ∀ b ∈ rest, b ∈ (reg obj.etype).instAttr :=
      fun b hb => hnames b (List.mem_cons_of_mem _ hb)
    by_cases hid : a = "id"
    · subst hid
      rw [encodeAttrs_cons_id]
      exact ih obj hnames2
    · cases hv : scalar2yaml (e.getattrA a) with
      | none =>
        rw [encodeAttrs_cons_none e rest hid hv]
        exact ih obj hnames2
      | some v =>
        rw [encodeAttrs_cons_some e rest hid hv, decodeFields_cons,
            if_pos hmem]
        dsimp only
        obtain ⟨obj2, hdec, he, hr, hm, hval⟩ :=
          ih (obj.setattrA a v) hnames2
        refine ⟨obj2, hdec, ?_, ?_, ?_, ?_⟩
        · rw [he, etype_setattrA]
        · rw [hr, rels_setattrA]
        · rw [hm, mrels_setattrA]
        · intro b
          by_cases hba : b = a
          · subst hba
            have hlk : ((b, RValue.scalar v) ::
                encodeAttrs e rest).lookup b = some (.scalar v) := by
              simp [List.lookup]
            rw [hlk]
            have hvb := hval b
            rw [lookup_encodeAttrs] at hvb
            by_cases hbrest : b ∈ rest
            · rw [if_pos ⟨hbrest, hid⟩, hv] at hvb
              simpa using hvb
            · have hcond : ¬ (b ∈ rest ∧ b ≠ "id") := fun hx => hbrest hx.1
              rw [if_neg hcond] at hvb
              dsimp only at hvb
              rw [hvb, getattrA_setattrA_same]
          · have hba2 : (b == a) = false := by simpa using hba
            have hlk : ((a, RValue.scalar v) ::
                encodeAttrs e rest).lookup b =
                (encodeAttrs e rest).lookup b := by
              simp [List.lookup, hba2]
            rw [hlk]
            have hvb := hval b
            cases hlk2 : (encodeAttrs e rest).lookup b with
            | none =>
              rw [hlk2] at hvb
              dsimp only at hvb
              rw [hvb, getattrA_setattrA_ne _ _ hba]
            | some rv =>
              cases rv with
              | scalar w =>
                rw [hlk2] at hvb
                simpa using hvb
              | sublist rs =>
                rw [hlk2] at hvb
                dsimp only at hvb
                rw [hvb, getattrA_setattrA_ne _ _ hba]

theorem encodeRels_cons_none (keyOf : Entity → String) (e : Entity)
    {a : String} (rest : List String) (ho : e.getrel a = none) :
    encodeRels keyOf e (a :: rest) = encodeRels keyOf e rest := by
  simp [encodeRels, List.filterMap_cons, ho]

theorem encodeRels_cons_some (keyOf : Entity → String) (e : Entity)
    {a : String} (rest : List String) {o : Entity}
    (ho : e.getrel a = some o) :
    encodeRels keyOf e (a :: rest) =
      (a, RValue.scalar (.vstr (keyOf o))) :: encodeRels keyOf e rest := by
  simp [encodeRels, List.filterMap_cons, ho]

/-- Decoding the to-one relation segment of an encoded record: under a
resolver that maps the key of each present target back to that target, it
succeeds, leaves type, attributes and to-many relations unchanged, and sets
exactly the emitted relation targets. -/
theorem decode_encodeRels {reg : String → EntityType}
    {childType : String → String → String} {resolve : String → Option Entity}
    (keyOf : Entity → String) (e : Entity) :
    ∀ (names : List String) (obj : Entity),
      (∀ a ∈ names, a ∉ (reg obj.etype).instAttr ∧
        a ∈ (reg obj.etype).instRel) →
      (∀ p ∈ e.rels, resolve (keyOf p.2) = some p.2) →
      ∃ obj2,
        decodeFields reg childType resolve (encodeRels keyOf e names) obj =
          .ok obj2 ∧
        obj2.etype = obj.etype ∧ obj2.attrs = obj.attrs ∧
        obj2.mrels = obj.mrels ∧
        (∀ b, obj2.getrel b =
          match (encodeRels keyOf e names).lookup b with
          | some _ => e.getrel b
          | none => obj.getrel b) := by
  intro names
  induction names with
  | nil =>
    intro obj hnames hres
    refine ⟨obj, ?_, rfl, rfl, rfl, ?_⟩
    · have h0 : encodeRels keyOf e [] = [] := rfl
      rw [h0, decodeFields_nil]
    · intro b
      have h0 : encodeRels keyOf e [] = [] := rfl
      rw [h0]
      simp [List.lookup]
  | cons a rest ih =>
    intro obj hnames hres
    have hmem := hnames a (List.mem_cons_self _ _)
    have hnames2 : ∀ b ∈ rest, b ∉ (reg obj.etype).instAttr ∧
        b ∈ (reg obj.etype).instRel :=
      fun b hb => hnames b (List.mem_cons_of_mem _ hb)
    cases ho : e.getrel a with
    | none =>
      rw [encodeRels_cons_none keyOf e rest ho]
      exact ih obj hnames2 hres
    | some o =>
      have hkey : resolve (keyOf o) = some o :=
        hres (a, o) (mem_of_lookup_eq_some ho)
      rw [encodeRels_cons_some keyOf e rest ho, decodeFields_cons,
          if_neg hmem.1, if_pos hmem.2]
      dsimp only
      rw [hkey]
      obtain ⟨obj2, hdec, he, hat, hm, hval⟩ := ih (obj.setrel a o) hnames2 hres
      refine ⟨obj2, hdec, ?_, ?_, ?_, ?_⟩
      · rw [he, etype_setrel]
      · rw [hat, attrs_setrel]
      · rw [hm, mrels_setrel]
      · intro b
        by_cases hba : b = a
        · subst hba
          have hlk : ((b, RValue.scalar (.vstr (keyOf o))) ::
              encodeRels keyOf e rest).lookup b =
              some (RValue.scalar (.vstr (keyOf o))) := by
            simp [List.lookup]
          rw [hlk]
          have hvb := hval b
          cases hlk2 : (encodeRels keyOf e rest).lookup b with
          | some rv =>
            rw [hlk2] at hvb
            simpa using hvb
          | none =>
            rw [hlk2] at hvb
            dsimp only at hvb
            rw [hvb, getrel_setrel_same]
            exact ho.symm
        · have hba2 : (b == a) = false := by simpa using hba
          have hlk : ((a, RValue.scalar (.vstr (keyOf o))) ::
              encodeRels keyOf e rest).lookup b =
              (encodeRels keyOf e rest).lookup b := by
            simp [List.lookup, hba2]
          rw [hlk]
          have hvb := hval b
          cases hlk2 : (encodeRels keyOf e rest).lookup b with
          | some rv =>
            rw [hlk2] at hvb
            simpa using hvb
          | none =>
            rw [hlk2] at hvb
            dsimp only at hvb
            rw [hvb, getrel_setrel_ne _ _ hba]

theorem encodeMRels_cons_nil (reg : String → EntityType)
    (keyOf sk : Entity → String) (e : Entity) {a : String}
    (rest : List String) (hnil : e.getmrel a = []) :
    encodeMRels reg keyOf sk e (a :: rest) =
      encodeMRels reg keyOf sk e rest := by
  rw [encodeMRels]
  rw [dif_neg]
  · simp
  · rw [hnil]
    simp

theorem encodeMRels_cons_some (reg : String → EntityType)
    (keyOf sk : Entity → String) (e : Entity) {a : String}
    (rest : List String) (hne : e.getmrel a ≠ []) :
    encodeMRels reg keyOf sk e (a :: rest) =
      (a, RValue.sublist
        (encodeList reg keyOf sk ((e.getmrel a).mergeSort (skle sk)))) ::
      encodeMRels reg keyOf sk e rest := by
  rw [encodeMRels]
  rw [dif_pos (List.length_pos.mpr hne)]
  simp

/-- Decoding the to-many relation segment of an encoded record: given
successful decoding of each emitted sorted child list, it succeeds, leaves
type, attributes and to-one relations unchanged, appends the decoded
children exactly to the emitted relations, and leaves the rest alone. -/
theorem decode_encodeMRels {reg : String → EntityType}
    {childType : String → String → String} {resolve : String → Option Entity}
    (keyOf sk : Entity → String) (e : Entity) :
    ∀ (names : List String) (obj : Entity),
      names.Nodup →
      (∀ a ∈ names, a ∉ (reg obj.etype).instAttr ∧
        a ∉ (reg obj.etype).instRel ∧ a ∈ (reg obj.etype).instMRel) →
      (∀ a ∈ names, e.getmrel a ≠ [] → ∃ l,
        decodeChildren reg childType resolve
          (encodeList reg keyOf sk ((e.getmrel a).mergeSort (skle sk)))
          (childType obj.etype a) = .ok l ∧
        listEquiv reg l ((e.getmrel a).mergeSort (skle sk))) →
      ∃ obj2,
        decodeFields reg childType resolve
          (encodeMRels reg keyOf sk e names) obj = .ok obj2 ∧
        obj2.etype = obj.etype ∧ obj2.attrs = obj.attrs ∧
        obj2.rels = obj.rels ∧
        (∀ b, b ∉ names → obj2.getmrel b = obj.getmrel b) ∧
        (∀ b ∈ names,
          (e.getmrel b = [] → obj2.getmrel b = obj.getmrel b) ∧
          (e.getmrel b ≠ [] → ∃ l,
            obj2.getmrel b = obj.getmrel b ++ l ∧
            listEquiv reg l ((e.getmrel b).mergeSort (skle sk)))) := by
  intro names
  induction names with
  | nil =>
    intro obj hnd hnames hchild
    refine ⟨obj, ?_, rfl, rfl, rfl, fun b hb => rfl, fun b hb => by simp at hb⟩
    rw [encodeMRels, decodeFields_nil]
  | cons a rest ih =>
    intro obj hnd hnames hchild
    have hnotin : a ∉ rest := (List.nodup_cons.mp hnd).1
    have hndrest : rest.Nodup := (List.nodup_cons.mp hnd).2
    have hmem := hnames a (List.mem_cons_self _ _)
    have hnames2 : ∀ b ∈ rest, b ∉ (reg obj.etype).instAttr ∧
        b ∉ (reg obj.etype).instRel ∧ b ∈ (reg obj.etype).instMRel :=
      fun b hb => hnames b (List.mem_cons_of_mem _ hb)
    have hchild2 : ∀ b ∈ rest, e.getmrel b ≠ [] → ∃ l,
        decodeChildren reg childType resolve
          (encodeList reg keyOf sk ((e.getmrel b).mergeSort (skle sk)))
          (childType obj.etype b) = .ok l ∧
        listEquiv reg l ((e.getmrel b).mergeSort (skle sk)) :=
      fun b hb => hchild b (List.mem_cons_of_mem _ hb)
    by_cases hnil : e.getmrel a = []
    · rw [encodeMRels_cons_nil reg keyOf sk e rest hnil]
      obtain ⟨obj2, hdec, he, hat, hr, hpres, hin⟩ :=
        ih obj hndrest hnames2 hchild2
      refine ⟨obj2, hdec, he, hat, hr, ?_, ?_⟩
      · intro b hb
        exact hpres b (fun hx => hb (List.mem_cons_of_mem _ hx))
      · intro b hb
        rcases List.mem_cons.mp hb with hb | hb
        · subst hb
          constructor
          · intro h9
            exact hpres b hnotin
          · intro hbne
            exact absurd hnil hbne
        · exact hin b hb
    · obtain ⟨l, hok, heqv⟩ := hchild a (List.mem_cons_self _ _) hnil
      rw [encodeMRels_cons_some reg keyOf sk e rest hnil, decodeFields_cons,
          if_neg hmem.1, if_neg hmem.2.1, if_pos hmem.2.2]
      dsimp only
      rw [hok]
      obtain ⟨obj2, hdec, he, hat, hr, hpres, hin⟩ :=
        ih (obj.appendmrel a l) hndrest hnames2 hchild2
      refine ⟨obj2, hdec, ?_, ?_, ?_, ?_, ?_⟩
      · rw [he, etype_appendmrel]
      · rw [hat, attrs_appendmrel]
      · rw [hr, rels_appendmrel]
      · intro b hb
        have hbne : b ≠ a := fun hx => hb (hx ▸ List.mem_cons_self _ _)
        rw [hpres b (fun hx => hb (List.mem_cons_of_mem _ hx)),
            getmrel_appendmrel_ne _ _ hbne]
      · intro b hb
        rcases List.mem_cons.mp hb with hb | hb
        · subst hb
          constructor
          · intro hbnil
            exact absurd hbnil hnil
          · intro h9
            refine ⟨l, ?_, heqv⟩
            rw [hpres b hnotin, getmrel_appendmrel_same]
        · have hbne : b ≠ a := fun hx => hnotin (hx ▸ hb)
          obtain ⟨hc1, hc2⟩ := hin b hb
          constructor
          · intro hbnil
            rw [hc1 hbnil, getmrel_appendmrel_ne _ _ hbne]
          · intro hbnonnil
            obtain ⟨l2, hl2, heqv2⟩ := hc2 hbnonnil
            refine ⟨l2, ?_, heqv2⟩
            rw [hl2, getmrel_appendmrel_ne _ _ hbne]

theorem normal_getattrA {e : Entity} (h : ∀ p ∈ e.attrs, normalValue p.2)
    (a : String) : normalValue (e.getattrA a) := by
  unfold Entity.getattrA
  cases hl : e.attrs.lookup a with
  | none => trivial
  | some v => exact h (a, v) (mem_of_lookup_eq_some hl)

theorem getattrA_mk_nil (t b : String) :
    (Entity.mk t [] [] []).getattrA b = .vnone := rfl

theorem getrel_mk_nil (t b : String) :
    (Entity.mk t [] [] []).getrel b = none := rfl

theorem getmrel_mk_nil (t b : String) :
    (Entity.mk t [] [] []).getmrel b = [] := rfl

/-- The round-trip simulation, by strong induction on entity size: a good
input entity decodes from its own encoding to an equivalent entity, and a
good list of children decodes from its encoding to a pointwise equivalent
list. -/
theorem roundtrip_main {reg : String → EntityType}
    {childType : String → String → String} {resolve : String → Option Entity}
    {keyOf sk : Entity → String} :
    ∀ (n : Nat),
      (∀ e : Entity, sizeOf e ≤ n →
        GoodInput reg keyOf childType resolve e →
        ∃ e2, decodeFields reg childType resolve
            (entity2dict reg keyOf sk e) (.mk e.etype [] [] []) = .ok e2 ∧
          entityEquiv reg e2 e) ∧
      (∀ (cs : List Entity) (t : String), sizeOf cs ≤ n →
        GoodList reg keyOf childType resolve cs t →
        ∃ l, decodeChildren reg childType resolve
            (encodeList reg keyOf sk cs) t = .ok l ∧
          listEquiv reg l cs) := by
  intro n
  induction n with
  | zero =>
    constructor
    · intro e he
      have := sizeOf_entity_pos e
      omega
    · intro cs t hcs hgood
      have := sizeOf_list_pos cs
      omega
  | succ m ih =>
    constructor
    · intro e he hg
      simp only [GoodInput] at hg
      obtain ⟨hWF, hattrs, hrels, hmrels, hnorm, hres, hgood⟩ := hg
      obtain ⟨hnd1, hnd2, hnd3, hdisj, hrm, hidr, hidm⟩ := hWF
      have hgood2 := (GoodMRels_iff_forall reg keyOf childType resolve e
        (reg e.etype).instMRel).mp hgood
      -- phase 1: the attribute segment
      obtain ⟨obj1, h1dec, h1et, h1r, h1m, h1val⟩ :=
        @decode_encodeAttrs reg childType resolve e (reg e.etype).instAttr
          (Entity.mk e.etype [] [] []) (fun a ha => ha)
      have h1et2 : obj1.etype = e.etype := h1et
      -- phase 2: the to-one relation segment
      obtain ⟨obj2, h2dec, h2et, h2at, h2m, h2val⟩ :=
        @decode_encodeRels reg childType resolve keyOf e
          (reg e.etype).instRel obj1
          (fun a ha => by
            rw [h1et2]
            exact ⟨fun hx => (hdisj a hx).1 ha, ha⟩)
          hres
      have h2et2 : obj2.etype = e.etype := by rw [h2et, h1et2]
      -- phase 3: the to-many relation segment
      obtain ⟨obj3, h3dec, h3et, h3at, h3r, h3pres, h3in⟩ :=
        @decode_encodeMRels reg childType resolve keyOf sk e
          (reg e.etype).instMRel obj2 hnd3
          (fun a ha => by
            rw [h2et2]
            exact ⟨fun hx => (hdisj a hx).2 ha, fun hx => hrm a hx ha, ha⟩)
          (fun a ha hane => by
            have hgl : GoodList reg keyOf childType resolve
                ((e.getmrel a).mergeSort (skle sk)) (childType e.etype a) := by
              rw [GoodList_iff_forall]
              intro c hc
              exact (GoodList_iff_forall reg keyOf childType resolve
                (childType e.etype a) (e.getmrel a)).mp (hgood2 a ha) c
                (List.mem_mergeSort.mp hc)
            have hsz : sizeOf ((e.getmrel a).mergeSort (skle sk)) ≤ m := by
              have hp : sizeOf ((e.getmrel a).mergeSort (skle sk)) =
                  sizeOf (e.getmrel a) :=
                (List.mergeSort_perm (e.getmrel a)
                  (skle sk)).sizeOf_eq_sizeOf
              have hlt := sizeOf_getmrel_lt_always e a
              omega
            obtain ⟨l, hl, hleq⟩ := ih.2 ((e.getmrel a).mergeSort (skle sk))
              (childType e.etype a) hsz hgl
            refine ⟨l, ?_, hleq⟩
            rw [h2et2]
            exact hl)
      -- assemble the decoding of the full record
      refine ⟨obj3, ?_, ?_⟩
      · rw [entity2dict, decodeFields_append, decodeFields_append, h1dec]
        dsimp only
        rw [h2dec]
        dsimp only
        exact h3dec
      · have hfet : obj3.etype = e.etype := by rw [h3et, h2et2]
        simp only [entityEquiv]
        refine ⟨hfet, ?_, ?_, ?_⟩
        · intro a ha hid
          rw [hfet] at ha
          have hval : obj3.getattrA a = obj1.getattrA a := by
            rw [getattrA_congr h3at a, getattrA_congr h2at a]
          rw [hval, h1val a, lookup_encodeAttrs, if_pos ⟨ha, hid⟩]
          by_cases hvn : e.getattrA a = .vnone
          · rw [hvn]
            simp [scalar2yaml, getattrA_mk_nil]
          · simp [scalar2yaml_of_normal (normal_getattrA hnorm a) hvn]
        · intro a ha
          rw [hfet] at ha
          have hval : obj3.getrel a = obj2.getrel a :=
            getrel_congr h3r a
          rw [hval, h2val a, lookup_encodeRels, if_pos ha]
          cases ho : e.getrel a with
          | some o => simp
          | none =>
            show obj1.getrel a = none
            rw [getrel_congr h1r a, getrel_mk_nil]
        · rw [hfet, EquivMRels_iff_forall]
          intro a ha
          obtain ⟨hc1, hc2⟩ := h3in a ha
          by_cases hnil : e.getmrel a = []
          · refine ⟨[], ?_, ?_⟩
            · rw [hnil]
            · rw [hc1 hnil, getmrel_congr h2m a, getmrel_congr h1m a,
                  getmrel_mk_nil]
              simp only [listEquiv]
          · obtain ⟨l, hl, hleq⟩ := hc2 hnil
            refine ⟨(e.getmrel a).mergeSort (skle sk),
              List.mergeSort_perm _ _, ?_⟩
            rw [hl, getmrel_congr h2m a, getmrel_congr h1m a,
                getmrel_mk_nil]
            simpa using hleq
    · intro cs t hcs hgood
      cases cs with
      | nil =>
        rw [encodeList, decodeChildren_nil]
        refine ⟨[], rfl, ?_⟩
        simp only [listEquiv]
      | cons c rest =>
        rw [GoodList] at hgood
        obtain ⟨⟨hct, hgc⟩, hgrest⟩ := hgood
        have hszc : sizeOf c ≤ m := by
          simp at hcs
          have := sizeOf_list_pos rest
          omega
        have hszrest : sizeOf rest ≤ m := by
          simp at hcs
          have := sizeOf_entity_pos c
          omega
        subst hct
        obtain ⟨e2c, hdecc, heqc⟩ := ih.1 c hszc hgc
        obtain ⟨l, hdecl, heql⟩ := ih.2 rest c.etype hszrest hgrest
        rw [encodeList, decodeChildren_cons, hdecc]
        dsimp only
        rw [hdecl]
        refine ⟨e2c :: l, rfl, ?_⟩
        rw [listEquiv]
        exact ⟨heqc, heql⟩

/-- C1 (amended): for a good input entity — all exposed fields declared by
a well-formed type, attribute values already normalized (no raw timestamps
or other stringified scalars), the resolver mapping each to-one target key
back to its target, children carrying the declared child types — decoding
the encoded record yields an entity observationally equivalent to the
original: equal plain attributes, equal to-one targets, and to-many
children equivalent up to the encoder's sorting of each child list.  For
values that are not normalized (raw timestamps in particular) equality
fails and only equality up to scalar normalization holds. -/
theorem claim_C1_amended_roundtrip {reg : String → EntityType}
    {childType : String → String → String} {resolve : String → Option Entity}
    {keyOf sk : Entity → String} {e : Entity}
    (hg : GoodInput reg keyOf childType resolve e) :
    ∃ e2, dict2entity reg childType resolve
        (entity2dict reg keyOf sk e) e.etype = .ok e2 ∧
      entityEquiv reg e2 e := by
  unfold dict2entity
  exact (roundtrip_main (sizeOf e)).1 e le_rfl hg

/-!
Concrete collaborator instances and inputs for the witnesses and
counterexamples.
-/

/-- Modelled from the spec: a concrete natural sort key for entities. -/
def skW : Entity → String := fun e => e.etype

/-- Modelled from the spec: a concrete unique-key function, standing for
getUniqueKey backed by the ambient key index. -/
def keyOfW : Entity → String := fun e => e.etype ++ "_key"

/-- Modelled from the spec: the child-type mapping obtained from
client.getEntityInfo for the relations used in the examples. -/
def childTypeW : String → String → String := fun t a =>
  if t = "dataset" && a = "parameters" then "datasetParameter"
  else if t = "datafile" && a = "parameters" then "datafileParameter"
  else if t = "investigation" && a = "keywords" then "keyword"
  else ""

/-- Modelled from the spec: a resolver connected to an empty index. -/
def resolveW : String → Option Entity := fun _ => none

/-- An investigation entity used as a to-one relation target. -/
def invW : Entity := .mk "investigation" [("name", .vstr "inv1")] [] []

/-- Modelled from the spec: a resolver whose index holds the key of invW,
consistently with keyOfW. -/
def resolveInv : String → Option Entity :=
  fun k => if k = "investigation_key" then some invW else none

/-- A dataset whose startDate holds a naive datetime value. -/
def datasetDatetime : Entity :=
  .mk "dataset" [("startDate", .vdatetime ⟨"2020-01-01T00:00:00", none⟩)]
    [] []

/-- A dataset with a normalized attribute and a to-one relation. -/
def datasetGood : Entity :=
  .mk "dataset" [("name", .vstr "ds1")] [("investigation", invW)] []

/-- Counterexample to C1 as stated: the dataset with a naive datetime
startDate is fully declared and decodes successfully from its own encoding
under a trivially consistent key index, but the decoded plain attribute
value is the rendered ISO string and not the original datetime value, so
decode of encode does not reproduce equal plain attribute values. -/
theorem claim_C1_counterexample :
    dict2entity icatTypemap childTypeW resolveW
        (entity2dict icatTypemap keyOfW skW datasetDatetime) "dataset" =
      .ok (.mk "dataset" [("startDate", .vstr "2020-01-01T00:00:00Z")]
        [] []) ∧
    (Entity.mk "dataset" [("startDate", .vstr "2020-01-01T00:00:00Z")]
        [] []).getattrA "startDate" ≠
      datasetDatetime.getattrA "startDate" := by
  constructor
  · have henc : entity2dict icatTypemap keyOfW skW datasetDatetime =
        [("startDate", .scalar (.vstr "2020-01-01T00:00:00Z"))] := by
      simp [entity2dict, encodeAttrs, encodeRels, encodeMRels, encodeList,
            icatTypemap, entityDataset43, datasetDatetime, Entity.getattrA,
            Entity.getrel, Entity.getmrel, Entity.etype, Entity.attrs,
            Entity.rels, Entity.mrels, scalar2yaml, Datetime.hasTzOffset,
            Datetime.isoformat, List.lookup, List.filterMap]
    rw [henc]
    simp [dict2entity, decodeFields, icatTypemap, entityDataset43,
          Entity.etype, Entity.setattrA, setassoc, Entity.attrs,
          Entity.rels, Entity.mrels]
  · decide

/-- Witness for the amended C1 at a concrete good input: a dataset with a
normalized name attribute and an investigation relation whose key resolves
back to the same investigation. -/
theorem claim_C1_amended_roundtrip_witness :
    ∃ e2, dict2entity icatTypemap childTypeW resolveInv
        (entity2dict icatTypemap keyOfW skW datasetGood)
        datasetGood.etype = .ok e2 ∧
      entityEquiv icatTypemap e2 datasetGood := by
  apply claim_C1_amended_roundtrip
  simp only [GoodInput, GoodMRels, GoodList, datasetGood, Entity.etype,
             Entity.attrs, Entity.rels, Entity.mrels, Entity.getmrel,
             icatTypemap, entityDataset43]
  refine ⟨by decide, ?_, ?_, ?_, ?_, ?_, ?_⟩
  · intro p hp
    simp at hp
    subst hp
    decide
  · intro p hp
    simp at hp
    subst hp
    decide
  · intro p hp
    simp at hp
  · intro p hp
    simp at hp
    subst hp
    trivial
  · intro p hp
    simp at hp
    subst hp
    rfl
  · simp [GoodMRels, GoodList, Entity.getmrel, Entity.mrels, Entity.etype,
          List.lookup]

/-- A datafile record carrying an extra undeclared field bogus. -/
def datafileBogus : Record :=
  [("name", .scalar (.vstr "df1")), ("bogus", .scalar (.vint 1))]

/-- Witness for C2: the datafile record with the extra field bogus is never
decoded successfully, and under clean shaping it fails with an
unknown-field error. -/
theorem claim_C2_unknown_field_rejected_witness :
    (∀ obj2, dict2entity icatTypemap childTypeW resolveW datafileBogus
      "datafile" ≠ .ok obj2) ∧
    (CleanShape icatTypemap childTypeW resolveW datafileBogus "datafile" →
      ∃ a2 t2, dict2entity icatTypemap childTypeW resolveW datafileBogus
        "datafile" = .error (.unknownField a2 t2)) :=
  @claim_C2_unknown_field_rejected icatTypemap childTypeW resolveW
    datafileBogus "datafile" ("bogus", RValue.scalar (.vint 1))
    (by simp [datafileBogus]) (by decide) (by decide) (by decide)

/-- A chunk holding one facility and one instrument record. -/
def chunkW : Chunk :=
  [("facility", [("Facility_HZB", [("name", RValue.scalar (.vstr "HZB"))])]),
   ("instrument",
    [("Instrument_X", [("name", RValue.scalar (.vstr "instX"))])])]

/-- The entities that getobjs yields from chunkW. -/
def objsW : List (String × Entity) :=
  [("Facility_HZB", .mk "facility" [("name", .vstr "HZB")] [] []),
   ("Instrument_X", .mk "instrument" [("name", .vstr "instX")] [] [])]

/-- Witness for C3 at a concrete chunk holding a facility and an
instrument record. -/
theorem claim_C3_reader_type_order_witness :
    (∀ p ∈ objsW, p.2.etype ∈ entitytypes) ∧
    objsW.Pairwise (fun p q =>
      typeIndex entitytypes p.2.etype ≤ typeIndex entitytypes q.2.etype) ∧
    typeIndex entitytypes "facility" < typeIndex entitytypes "instrument" ∧
    typeIndex entitytypes "instrument" <
      typeIndex entitytypes "investigation" ∧
    typeIndex entitytypes "investigation" < typeIndex entitytypes "dataset" ∧
    typeIndex entitytypes "dataset" < typeIndex entitytypes "datafile" := by
  exact @claim_C3_reader_type_order icatTypemap childTypeW resolveW
    chunkW objsW
    (by simp [getobjs, getobjsFrom, entitytypes, chunkW, objsW, List.lookup,
          decodeItems, dict2entity, decodeFields, icatTypemap,
          entityFacility43, entityInstrument43, Entity.etype,
          Entity.setattrA, setassoc, Entity.attrs, Entity.rels,
          Entity.mrels])

/-- Counterexample to C4 as stated: the reader does not fail with
UnknownEntityTypeError on a chunk holding an entry with the unknown tag
bogusType; it yields no objects and raises nothing. -/
theorem claim_C4_counterexample :
    getobjs icatTypemap childTypeW resolveW [("bogusType", [("k", [])])] =
      .ok [] := by
  simp [getobjs, getobjsFrom, entitytypes, List.lookup]

/-- Witness for the amended C4 at the concrete unknown tag bogusType. -/
theorem claim_C4_amended_unknown_tag_witness :
    (∀ (keyOf sk : Entity → String) (w : YAMLDumpFileWriter)
        (key : String) (obj : Entity),
      YAMLDumpFileWriter.add icatTypemap keyOf sk w "bogusType" key obj =
        .error (.unknownEntityType "bogusType")) ∧
    (∀ (items : List (String × Record)) (data : Chunk),
      getobjs icatTypemap childTypeW resolveW (("bogusType", items) :: data) =
        getobjs icatTypemap childTypeW resolveW data) :=
  claim_C4_amended_unknown_tag (by decide)

/-- Witness for C5 at the concrete dataset entity. -/
theorem claim_C5_encode_omits_absent_witness :
    (∀ p ∈ entity2dict icatTypemap keyOfW skW datasetGood, p.1 ≠ "id") ∧
    (∀ a ∈ (icatTypemap datasetGood.etype).instAttr,
        datasetGood.getattrA a = .vnone →
        ∀ p ∈ entity2dict icatTypemap keyOfW skW datasetGood, p.1 ≠ a) ∧
    (∀ a ∈ (icatTypemap datasetGood.etype).instRel,
        datasetGood.getrel a = none →
        ∀ p ∈ entity2dict icatTypemap keyOfW skW datasetGood, p.1 ≠ a) ∧
    (∀ a ∈ (icatTypemap datasetGood.etype).instMRel,
        datasetGood.getmrel a = [] →
        ∀ p ∈ entity2dict icatTypemap keyOfW skW datasetGood, p.1 ≠ a) :=
  claim_C5_encode_omits_absent keyOfW skW (by decide)

/-- Witness for C6 at the dataset with a naive datetime startDate. -/
theorem claim_C6_timestamp_rendering_witness :
    (entity2dict icatTypemap keyOfW skW datasetDatetime).lookup
        "startDate" =
      some (.scalar (.vstr ("2020-01-01T00:00:00" ++ "Z"))) :=
  @claim_C6_timestamp_rendering icatTypemap keyOfW skW datasetDatetime
    "startDate" ⟨"2020-01-01T00:00:00", none⟩ (by decide) (by decide)
    (by decide) rfl

/-- Two dataset parameter children. -/
def dsParamA : Entity := .mk "datasetParameter" [("stringValue", .vstr "a")] [] []

/-- A second dataset parameter child. -/
def dsParamB : Entity := .mk "datasetParameter" [("stringValue", .vstr "b")] [] []

/-- A dataset with two children in its parameters relation. -/
def datasetChildren : Entity :=
  .mk "dataset" [("name", .vstr "ds2")] []
    [("parameters", [dsParamA, dsParamB])]

/-- Witness for C7 at a dataset with a non-empty parameters relation. -/
theorem claim_C7_children_sorted_witness :
    ∃ cs : List Entity, cs.Perm (datasetChildren.getmrel "parameters") ∧
      cs.Pairwise (fun x y => skW x ≤ skW y) ∧
      (entity2dict icatTypemap keyOfW skW datasetChildren).lookup
          "parameters" =
        some (.sublist (cs.map (entity2dict icatTypemap keyOfW skW))) :=
  claim_C7_children_sorted keyOfW (by decide) (by decide)
    (by simp [datasetChildren, Entity.getmrel, Entity.mrels, List.lookup])

/-- A facility entity exposing an extra field bogus beyond the declared
ones. -/
def facilityExtra : Entity :=
  .mk "facility" [("name", .vstr "HZB"), ("bogus", .vint 1)] [] []

/-- Counterexample to C9 as stated: encoding the facility that exposes the
undeclared field bogus does not fail; it returns a record that silently
omits the undeclared field. -/
theorem claim_C9_counterexample :
    entity2dict icatTypemap keyOfW skW facilityExtra =
      [("name", .scalar (.vstr "HZB"))] := by
  simp [entity2dict, encodeAttrs, encodeRels, encodeMRels, encodeList,
        icatTypemap, entityFacility43, facilityExtra, Entity.getattrA,
        Entity.getrel, Entity.getmrel, Entity.etype, Entity.attrs,
        Entity.rels, Entity.mrels, scalar2yaml, List.lookup,
        List.filterMap]

/-- Witness for the amended C9 at the facility with an extra field. -/
theorem claim_C9_amended_encoder_fields_witness :
    ("name", RValue.scalar (Value.vstr "HZB")).1 ∈
      (icatTypemap facilityExtra.etype).instAttr ∨
    ("name", RValue.scalar (Value.vstr "HZB")).1 ∈
      (icatTypemap facilityExtra.etype).instRel ∨
    ("name", RValue.scalar (Value.vstr "HZB")).1 ∈
      (icatTypemap facilityExtra.etype).instMRel := by
  apply claim_C9_amended_encoder_fields keyOfW skW facilityExtra
  simp [entity2dict, encodeAttrs, encodeRels, encodeMRels, encodeList,
        icatTypemap, entityFacility43, facilityExtra, Entity.getattrA,
        Entity.getrel, Entity.getmrel, Entity.etype, Entity.attrs,
        Entity.rels, Entity.mrels, scalar2yaml, List.lookup,
        List.filterMap]

end Icat
